import Mathlib

/-!
# Dual-camera capture-and-display loop (`src/main.cpp`)

A shallow embedding of `main` from `src/main.cpp`: the start-up sequence (open the
cameras, geometry assertion, buffer and slot set-up) and the acquisition loop
(per-camera read / resize / copy, display, key poll, frame-rate bookkeeping).

Modelling conventions.

* The devices, the clock and the keyboard are inputs: a `VideoCapture` record per
  camera index and one `IterationInput` per pass through `while (true)`.
* `double` values are rationals extended by the IEEE special values (`Dbl`); the sum
  and the quotient of two finite doubles are rounded to binary64 (53-bit significand,
  round to nearest, ties to even, overflow to infinity, subnormal numbers) by
  `Dbl.ofRat`.  The sign of zero is not modelled: a zero divisor is `+0.0`.
* `DWORD` is reduced modulo `2^32`, `int frameCount` wraps as a 32-bit
  two's-complement integer.
* Everything the program prints or asks of the display is recorded in a trace of
  `Event`s.
* A reported frame height or width is a pixel count, a natural number; the conversion
  from `double` to `int` in `Size(cols, rows)` is taken to be exact.
* `parallel_for` runs the two camera tasks as whole steps, one after the other; the
  order is a parameter of `parallelFor`.
* The calls into the vision library are total: a fault raised inside the library (an
  empty frame handed to `resize`, a failed allocation) is not modelled.
-/

namespace PvapiCapture

/-! ## Constants of the source -/

/-- Line 61: `const unsigned long numberOfCameras = 2;`. -/
def numberOfCameras : Nat := 2

/-- Line 62: `bool displayImages = true;`. -/
def displayImages : Bool := true

/-- Line 55: `#define VK_ESCAPE 0x1B`. -/
def VK_ESCAPE : Int := 0x1B

/-- The value of `EXIT_SUCCESS` from the C standard library. -/
def EXIT_SUCCESS : Nat := 0

/-- The value of `EXIT_FAILURE` from the C standard library. -/
def EXIT_FAILURE : Nat := 1

/-- Line 67: `double f = 0.4;`, the scale factor, as the rational two fifths.  A product
`n × 0.4` with `n` an integer is at least one tenth away from every half-integer, so
neither the error of the `double` nearest to 0.4 nor the treatment of ties changes
`round(n × f)`. -/
def f : ℚ := 2 / 5

/-- Matrix type tag of a single-channel 8-bit image (`CV_8UC1`). -/
def CV_8UC1 : Nat := 0

/-! ## Numbers -/

/-- A `double`: a rational (the value of a finite binary64 number) or one of the IEEE
special values. -/
inductive Dbl where
  | fin (q : ℚ)
  | posInf
  | negInf
  | nan
  deriving DecidableEq

namespace Dbl

/-- Round to the nearest integer, a tie to the even neighbour. -/
def roundHalfEven (q : ℚ) : Int :=
  if Int.fract q < 1 / 2 then ⌊q⌋
  else if 1 / 2 < Int.fract q then ⌊q⌋ + 1
  else if ⌊q⌋ % 2 = 0 then ⌊q⌋ else ⌊q⌋ + 1

/-- Exponent of the unit in the last place of the binary64 numbers next to `q`:
`⌊log₂ |q|⌋ - 52`, and `-1074` in the subnormal range. -/
def quantum (q : ℚ) : Int := max (Int.log 2 |q| - 52) (-1074)

/-- The binary64 result of an operation whose exact value is `q`: the multiple of
`2 ^ quantum q` nearest to `q`, ties to even, and infinity from `2 ^ 1024` on. -/
def ofRat (q : ℚ) : Dbl :=
  let v : ℚ := (roundHalfEven (|q| / 2 ^ quantum q) : ℚ) * 2 ^ quantum q
  if 2 ^ 1024 ≤ v then (if 0 < q then posInf else negInf)
  else fin (if 0 ≤ q then v else -v)

/-- Addition of doubles (`+=` in line 145). -/
def add : Dbl → Dbl → Dbl
  | fin a, fin b => ofRat (a + b)
  | nan, _ => nan
  | _, nan => nan
  | posInf, negInf => nan
  | negInf, posInf => nan
  | posInf, _ => posInf
  | _, posInf => posInf
  | negInf, _ => negInf
  | _, negInf => negInf

/-- Division of doubles (`/` in lines 144 and 146); a zero divisor is `+0.0`. -/
def div : Dbl → Dbl → Dbl
  | fin a, fin b =>
      if b = 0 then (if 0 < a then posInf else if a < 0 then negInf else nan)
      else ofRat (a / b)
  | nan, _ => nan
  | _, nan => nan
  | fin _, posInf => fin 0
  | fin _, negInf => fin 0
  | posInf, fin b => if b < 0 then negInf else posInf
  | negInf, fin b => if b < 0 then posInf else negInf
  | posInf, posInf => nan
  | posInf, negInf => nan
  | negInf, posInf => nan
  | negInf, negInf => nan

/-- Conversion of a `DWORD` to double, `(double)(timeEnd - timeStart)`; a 32-bit
integer is a binary64 number, so the conversion is exact. -/
def ofNat (n : Nat) : Dbl := fin (n : ℚ)

/-- Conversion of an `int` to double (the divisor `frameCount` in line 146), exact for
the same reason. -/
def ofInt (n : Int) : Dbl := fin (n : ℚ)

end Dbl

/-- Number of values of a `DWORD`. -/
def DWORD_SIZE : Nat := 2 ^ 32

/-- A `DWORD` as returned by `GetTickCount()`. -/
def toDWORD (n : Nat) : Nat := n % DWORD_SIZE

/-- Unsigned 32-bit subtraction, `timeEnd - timeStart` in line 144. -/
def dwordSub (a b : Nat) : Nat := (toDWORD a + DWORD_SIZE - toDWORD b) % DWORD_SIZE

/-- A 32-bit two's-complement `int` holding the mathematical value `n`. -/
def wrapInt32 (n : Int) : Int := (n + 2 ^ 31) % 2 ^ 32 - 2 ^ 31

/-! ## Images and rectangles -/

/-- A `cv::Mat`: size, type tag and the pixel at column `x`, row `y`. -/
structure Mat where
  cols : Nat
  rows : Nat
  type : Nat
  data : Nat → Nat → Nat

/-- A `cv::Rect`. -/
structure Rect where
  x : Nat
  y : Nat
  width : Nat
  height : Nat
  deriving DecidableEq, Repr

/-- Whether pixel `(px, py)` belongs to the rectangle. -/
def Rect.contains (r : Rect) (px py : Nat) : Bool :=
  decide (r.x ≤ px) && decide (px < r.x + r.width) &&
    decide (r.y ≤ py) && decide (py < r.y + r.height)

/-- Size and type of an image. -/
def Mat.shape (m : Mat) : Nat × Nat × Nat := (m.cols, m.rows, m.type)

/-- The pixel computation of an interpolation method (`INTER_LINEAR` in the source):
destination pixel `(x, y)` from the source image and the two scale factors. -/
abbrev Interpolation := Mat → ℚ → ℚ → Nat → Nat → Nat

/-- Modelled from the spec: the resize primitive of the vision library, which
"given a source image and a scale factor with interpolation method, produce[s] a
destination image of the scaled size", the size being `(round(W×f), round(H×f))`.
Called as `resize(src, dst, Size(), fx, fy, INTER_LINEAR)` in lines 90 and 127. -/
def resize (interp : Interpolation) (src : Mat) (fx fy : ℚ) : Mat :=
  { cols := (round ((src.cols : ℚ) * fx)).toNat
    rows := (round ((src.rows : ℚ) * fy)).toNat
    type := src.type
    data := interp src fx fy }

/-- Modelled from the spec: "copy the Resized Buffer into the corresponding slot of the
Composite Buffer", line 128, `src.copyTo(dst(r))`.  The header `dst(r)` shares the
pixels of `dst` inside `r`, and when `src` has the size of `r` and the type of `dst`
the copy is written through it.  The spec leaves a buffer that does not match its slot
open ("implicit, unchecked assumption"); there the model follows the library, whose
`copyTo` re-allocates the temporary header and leaves `dst` as it was. -/
def copyToRoi (src dst : Mat) (r : Rect) : Mat :=
  if src.cols = r.width ∧ src.rows = r.height ∧ src.type = dst.type then
    { dst with
      data := fun px py =>
        if r.contains px py then src.data (px - r.x) (py - r.y) else dst.data px py }
  else dst

/-- Nearest-neighbour sampling, an example of an interpolation method. -/
def nearest : Interpolation := fun src fx fy px py =>
  src.data (min (Int.toNat ⌊(px : ℚ) / fx⌋) (src.cols - 1))
    (min (Int.toNat ⌊(py : ℚ) / fy⌋) (src.rows - 1))

/-- An array indexed by camera number with entry `i` replaced. -/
def setAt {α : Type} (a : Nat → α) (i : Nat) (v : α) : Nat → α :=
  fun j => if j = i then v else a j

/-! ## Devices, inputs and the observable trace -/

/-- What a camera answers through the capture interface after `open`. -/
structure VideoCapture where
  /-- Result of `isOpened()` (line 77). -/
  opened : Bool
  /-- Value of `get(CV_CAP_PROP_FRAME_HEIGHT)`. -/
  frameHeight : Nat
  /-- Value of `get(CV_CAP_PROP_FRAME_WIDTH)`. -/
  frameWidth : Nat
  /-- Value of `get(CV_CAP_PROP_EXPOSURE)` before it is set (line 107). -/
  exposure : Dbl

/-- What the outside world supplies during one pass through `while (true)`. -/
structure IterationInput where
  /-- `GetTickCount()` in line 122. -/
  tickStart : Nat
  /-- The frame that `camera[i] >> frame[i]` delivers (line 125). -/
  grabbed : Nat → Mat
  /-- Value of `camera[i].get(CV_CAP_PROP_FPS)` (line 126). -/
  deviceFps : Nat → Dbl
  /-- Result of `waitKey(10)` (line 136); `-1` when no key was pressed. -/
  key : Int
  /-- `GetTickCount()` in line 143. -/
  tickEnd : Nat

/-- Observable actions of the program, in program order. -/
inductive Event where
  | openCamera (i : Nat)
  | cerrCannotOpen (i : Nat)
  | coutExposureAtBeginning (i : Nat) (e : Dbl)
  | setExposure (i : Nat) (e : Dbl)
  | coutFrameSize (cols rows : Nat)
  | coutExposureSet (e : Dbl)
  | namedWindow
  | coutPressEsc
  | grab (i : Nat)
  | copyTo (i : Nat) (r : Rect)
  | imshow
  | moveWindow (px py : Nat)
  | waitKey (delay : Nat)
  | destroyWindow
  | coutFps (frameRate0 frameRate1 : Dbl) (frameCount : Int) (fps avg_fps : Dbl)
  | coutVersion
  | systemPause
  deriving DecidableEq

/-- The local variables of `main` that the acquisition loop reads or writes. -/
structure ProgramState where
  frame : Nat → Mat
  imgResized : Nat → Mat
  combo : Mat
  roi : Nat → Rect
  frameRate : Nat → Dbl
  timeStart : Nat
  timeEnd : Nat
  fps : Dbl
  sum_fps : Dbl
  avg_fps : Dbl
  frameCount : Int
  trace : List Event

/-- How a run of `main` stands. -/
inductive Outcome where
  /-- `main` returned with this exit code. -/
  | returned (code : Nat)
  /-- The assertion of line 86 failed and the process was aborted. -/
  | assertionAbort
  /-- The loop is still in state RUNNING after all supplied iterations. -/
  | running
  deriving DecidableEq

/-! ## Start-up (lines 66 to 118) -/

/-- Lines 74 to 82: open the cameras in index order, stop at the first that is not
open.  `Except.error` carries the trace of the failed attempt. -/
def openCameras (cams : Nat → VideoCapture) :
    List Nat → List Event → Except (List Event) (List Event)
  | [], tr => .ok tr
  | i :: rest, tr =>
      if (cams i).opened then openCameras cams rest (tr ++ [Event.openCamera i])
      else .error (tr ++ [Event.openCamera i, Event.cerrCannotOpen i])

/-- Line 86: the condition of the assertion, with `rows` and `cols` read from camera 0
in lines 83 and 84 (a build in which `assert` is active).  The second conjunct asks
camera 0 for its width again, as the source does. -/
def geometryAssertion (cams : Nat → VideoCapture) : Bool :=
  let rows := (cams 0).frameHeight
  let cols := (cams 0).frameWidth
  decide (rows = (cams 1).frameHeight) && decide (cols = (cams 0).frameWidth)

/-- Lines 105 to 111: print and set the exposure of each camera; the double product of
`0.06` and `1000000` in line 109 is 60000. -/
def exposureEvents (cams : Nat → VideoCapture) : List Nat → List Event
  | [] => []
  | i :: rest =>
      [Event.coutExposureAtBeginning i (cams i).exposure,
        Event.setExposure i (Dbl.fin (3 / 50 * 1000000))] ++ exposureEvents cams rest

/-- Result of the start-up sequence. -/
inductive Startup where
  | openFailed (trace : List Event)
  | assertFailed (trace : List Event)
  | ready (st : ProgramState)

/-- Lines 66 to 118.  `interp` is the pixel computation of `INTER_LINEAR`, `uninit`
the contents of freshly allocated image memory. -/
def startup (interp : Interpolation) (uninit : Nat → Nat → Nat)
    (cams : Nat → VideoCapture) : Startup :=
  match openCameras cams (List.range numberOfCameras) [] with
  | .error tr => .openFailed tr
  | .ok tr =>
    let rows := (cams 0).frameHeight
    let cols := (cams 0).frameWidth
    if numberOfCameras = 2 ∧ geometryAssertion cams = false then .assertFailed tr
    else
      let frame : Nat → Mat := fun _ =>
        { cols := cols, rows := rows, type := CV_8UC1, data := uninit }
      let imgResized : Nat → Mat := fun i => resize interp (frame i) f f
      let combo : Mat :=
        { cols := (imgResized 0).cols * 2, rows := (imgResized 0).rows,
          type := (imgResized 0).type, data := uninit }
      let roi0 : Nat → Rect := fun _ => ⟨0, 0, (imgResized 0).cols, (imgResized 0).rows⟩
      let roi : Nat → Rect :=
        if 1 < numberOfCameras then
          setAt roi0 1 { roi0 1 with x := (imgResized 0).cols, y := 0 }
        else roi0
      let tr1 := tr ++ exposureEvents cams (List.range numberOfCameras)
        ++ [Event.coutFrameSize cols rows, Event.coutExposureSet (Dbl.fin (3 / 50 * 1000000))]
      let tr2 := if displayImages then tr1 ++ [Event.namedWindow] else tr1
      .ready
        { frame := frame, imgResized := imgResized, combo := combo, roi := roi,
          frameRate := fun _ => Dbl.fin 0, timeStart := 0, timeEnd := 0,
          fps := Dbl.fin 1, sum_fps := Dbl.fin 0, avg_fps := Dbl.fin 0, frameCount := 0,
          trace := tr2 ++ [Event.coutPressEsc] }

/-! ## The acquisition loop (lines 120 to 150) -/

/-- Lines 125 to 128: the body of the parallel loop for camera `i`. -/
def cameraTask (interp : Interpolation) (inp : IterationInput) (st : ProgramState)
    (i : Nat) : ProgramState :=
  let frame := setAt st.frame i (inp.grabbed i)
  let frameRate := setAt st.frameRate i (inp.deviceFps i)
  let imgResized := setAt st.imgResized i (resize interp (frame i) f f)
  { st with
    frame := frame, frameRate := frameRate, imgResized := imgResized,
    combo := copyToRoi (imgResized i) st.combo (st.roi i),
    trace := st.trace ++ [Event.grab i, Event.copyTo i (st.roi i)] }

/-- Lines 123 to 129: `parallel_for` over the camera indices, the tasks taken one
after the other in the given order. -/
def parallelFor (interp : Interpolation) (inp : IterationInput) (order : List Nat)
    (st : ProgramState) : ProgramState :=
  order.foldl (cameraTask interp inp) st

/-- Lines 130 to 135: count the frame and show the composite image. -/
def countAndShow (st : ProgramState) : ProgramState :=
  let st1 := { st with frameCount := wrapInt32 (st.frameCount + 1) }
  if displayImages then
    { st1 with trace := st1.trace ++ [Event.imshow, Event.moveWindow 780 50] }
  else st1

/-- Line 144: `1000.0 / (double)(timeEnd - timeStart)`. -/
def instantFps (timeStart timeEnd : Nat) : Dbl :=
  Dbl.div (Dbl.fin 1000) (Dbl.ofNat (dwordSub timeEnd timeStart))

/-- Lines 143 to 149: the frame-rate bookkeeping after a pass that goes on. -/
def measure (tickEnd : Nat) (st : ProgramState) : ProgramState :=
  let timeEnd := toDWORD tickEnd
  let fps := instantFps st.timeStart timeEnd
  let sum_fps := Dbl.add st.sum_fps fps
  let avg_fps := Dbl.div sum_fps (Dbl.ofInt st.frameCount)
  { st with
    timeEnd := timeEnd, fps := fps, sum_fps := sum_fps, avg_fps := avg_fps,
    trace := st.trace ++
      [Event.coutFps (st.frameRate 0) (st.frameRate 1) st.frameCount fps avg_fps] }

/-- Lines 122 to 136 of a pass: time stamp, per-camera step, frame count, display and
key poll. -/
def untilKeyPoll (interp : Interpolation) (st : ProgramState) (inp : IterationInput) :
    ProgramState :=
  let st1 := { st with timeStart := toDWORD inp.tickStart }
  let st2 := parallelFor interp inp (List.range numberOfCameras) st1
  let st3 := countAndShow st2
  { st3 with trace := st3.trace ++ [Event.waitKey 10] }

/-- One pass through the body of `while (true)`; the flag says whether `break` was
taken (line 140). -/
def loopBody (interp : Interpolation) (st : ProgramState) (inp : IterationInput) :
    ProgramState × Bool :=
  let st4 := untilKeyPoll interp st inp
  if inp.key = VK_ESCAPE then
    ({ st4 with trace := st4.trace ++ [Event.destroyWindow] }, true)
  else (measure inp.tickEnd st4, false)

/-- The loop `while (true)` run on the supplied iterations; the flag says whether the
loop was left. -/
def acquisitionLoop (interp : Interpolation) :
    ProgramState → List IterationInput → ProgramState × Bool
  | st, [] => (st, false)
  | st, inp :: rest =>
      match loopBody interp st inp with
      | (st1, true) => (st1, true)
      | (st1, false) => acquisitionLoop interp st1 rest

/-- Events of the part of a pass that every pass runs (lines 122 to 136). -/
def passEvents (roi : Nat → Rect) : List Event :=
  [Event.grab 0, Event.copyTo 0 (roi 0), Event.grab 1, Event.copyTo 1 (roi 1),
    Event.imshow, Event.moveWindow 780 50, Event.waitKey 10]

/-- A finished or suspended run of `main`. -/
structure Execution where
  outcome : Outcome
  trace : List Event
  final : Option ProgramState

/-- The function `main` (lines 64 to 155). -/
def main (interp : Interpolation) (uninit : Nat → Nat → Nat)
    (cams : Nat → VideoCapture) (inputs : List IterationInput) : Execution :=
  match startup interp uninit cams with
  | .openFailed tr => { outcome := .returned EXIT_FAILURE, trace := tr, final := none }
  | .assertFailed tr => { outcome := .assertionAbort, trace := tr, final := none }
  | .ready st =>
      match acquisitionLoop interp st inputs with
      | (st1, true) =>
          { outcome := .returned EXIT_SUCCESS,
            trace := st1.trace ++ [Event.coutVersion, Event.systemPause],
            final := some st1 }
      | (st1, false) => { outcome := .running, trace := st1.trace, final := some st1 }

/-! ## Example devices and inputs -/

/-- A camera that opens and reports the given height and width. -/
def openCamera (height width : Nat) : VideoCapture :=
  { opened := true, frameHeight := height, frameWidth := width, exposure := Dbl.fin 15000 }

/-- A camera that does not open. -/
def deadCamera : VideoCapture :=
  { opened := false, frameHeight := 0, frameWidth := 0, exposure := Dbl.fin 0 }

/-- Two cameras that open and both report 640 by 480. -/
def twoVga : Nat → VideoCapture := fun _ => openCamera 480 640

/-- Camera 0 reports 640 by 480, camera 1 reports 320 by 480: equal heights,
different widths. -/
def widthMismatch : Nat → VideoCapture :=
  fun i => if i = 0 then openCamera 480 640 else openCamera 480 320

/-- Camera 0 opens, every other camera does not. -/
def secondDead : Nat → VideoCapture :=
  fun i => if i = 0 then openCamera 480 640 else deadCamera

/-- A single-channel image of one value. -/
def solid (cols rows value : Nat) : Mat :=
  { cols := cols, rows := rows, type := CV_8UC1, data := fun _ _ => value }

/-- An iteration in which both cameras deliver black 640 by 480 frames. -/
def quietPass (tickStart tickEnd : Nat) (key : Int) : IterationInput :=
  { tickStart := tickStart, grabbed := fun _ => solid 640 480 0,
    deviceFps := fun _ => Dbl.fin 13, key := key, tickEnd := tickEnd }

/-- Extent of a resized image along an axis of `n` source pixels: `round(n × f)`. -/
def scaled (n : Nat) : Nat := (round ((n : ℚ) * f)).toNat

/-- A pass in which camera 0 delivers a white and camera 1 a black 640 by 480 frame. -/
def whiteBlackPass : IterationInput :=
  { tickStart := 0, grabbed := fun i => if i = 0 then solid 640 480 255 else solid 640 480 0,
    deviceFps := fun _ => Dbl.fin 13, key := -1, tickEnd := 100 }

/-- A state of the loop for two 640 by 480 cameras before the first pass. -/
def exampleState : ProgramState :=
  { frame := fun _ => solid 640 480 0, imgResized := fun _ => solid 256 192 0,
    combo := solid 512 192 0, roi := fun i => ⟨256 * i, 0, 256, 192⟩,
    frameRate := fun _ => Dbl.fin 0, timeStart := 0, timeEnd := 0, fps := Dbl.fin 1,
    sum_fps := Dbl.fin 0, avg_fps := Dbl.fin 0, frameCount := 0, trace := [] }

/-- One pass of 100 ms without a key. -/
def onePass : List IterationInput := [quietPass 0 100 (-1)]

/-- A first pass without a key and a second pass that polls ESC. -/
def twoPasses : List IterationInput := [quietPass 0 100 (-1), quietPass 100 200 27]

/-- A run of `n` passes of 100 ms each in which no key is pressed. -/
def longRun (n : Nat) : List IterationInput := List.replicate n (quietPass 0 100 (-1))

/-- The frame-rate sample that a pass with these tick counts contributes. -/
def sampleOf (inp : IterationInput) : Dbl :=
  instantFps (toDWORD inp.tickStart) (toDWORD inp.tickEnd)

/-- An interpolation method that maps an image of one value, not empty, to that value
at every destination pixel. -/
def PreservesSolid (interp : Interpolation) : Prop :=
  ∀ (src : Mat) (fx fy : ℚ) (a : Nat), 0 < src.cols → 0 < src.rows →
    (∀ px py, px < src.cols → py < src.rows → src.data px py = a) →
    ∀ px py, interp src fx fy px py = a

/-! ## Auxiliary facts -/

/-! ### Rounding to binary64 -/

theorem roundHalfEven_intCast (n : ℤ) : Dbl.roundHalfEven (n : ℚ) = n := by
  simp [Dbl.roundHalfEven]

theorem abs_roundHalfEven_sub_le (q : ℚ) : |(Dbl.roundHalfEven q : ℚ) - q| ≤ 1 / 2 := by
  have h0 := Int.fract_nonneg q
  have h1 := Int.fract_lt_one q
  have hq : q = ⌊q⌋ + Int.fract q := (Int.floor_add_fract q).symm
  unfold Dbl.roundHalfEven
  rw [abs_le]
  split_ifs with a b c
  · constructor <;> linarith
  · push_cast; constructor <;> linarith
  · constructor <;> linarith
  · push_cast; constructor <;> linarith

theorem quantum_le_of_representable (m k : ℤ) (hm : |m| < 2 ^ 53) (hm0 : m ≠ 0)
    (hk : -1074 ≤ k) : Dbl.quantum ((m : ℚ) * 2 ^ k) ≤ k := by
  unfold Dbl.quantum
  apply max_le _ hk
  have hpos : (0 : ℚ) < |(m : ℚ) * 2 ^ k| := by
    apply abs_pos.mpr
    have : (2 : ℚ) ^ k ≠ 0 := by positivity
    exact mul_ne_zero (by exact_mod_cast hm0) this
  have hlt : |(m : ℚ) * 2 ^ k| < ((2 : ℕ) : ℚ) ^ (k + 53) := by
    rw [abs_mul, abs_of_pos (by positivity : (0 : ℚ) < 2 ^ k), zpow_add₀ (by norm_num), mul_comm]
    have h2 : (|(m : ℚ)|) < 2 ^ (53 : ℤ) := by
      have h3 : ((|m| : ℤ) : ℚ) < ((2 ^ 53 : ℤ) : ℚ) := by exact_mod_cast hm
      rw [Int.cast_abs] at h3
      have h4 : (2 : ℚ) ^ (53 : ℤ) = ((2 ^ 53 : ℤ) : ℚ) := by norm_num
      rw [h4]
      exact h3
    have hp : (0 : ℚ) < ((2 : ℕ) : ℚ) ^ k := by positivity
    push_cast
    exact mul_lt_mul_of_pos_left h2 (by positivity)
  have := (Int.lt_zpow_iff_log_lt (by norm_num : 1 < 2) hpos).mp hlt
  omega

theorem ofRat_of_representable (m k : ℤ) (hm : |m| < 2 ^ 53) (hk : -1074 ≤ k)
    (hq : |(m : ℚ) * 2 ^ k| < 2 ^ 1024) :
    Dbl.ofRat ((m : ℚ) * 2 ^ k) = Dbl.fin ((m : ℚ) * 2 ^ k) := by
  by_cases hm0 : m = 0
  · subst hm0
    simp [Dbl.ofRat, Dbl.roundHalfEven]
  have ht := quantum_le_of_representable m k hm hm0 hk
  set q : ℚ := (m : ℚ) * 2 ^ k with hqdef
  set t := Dbl.quantum q with htdef
  obtain ⟨n, hn⟩ := Int.eq_ofNat_of_zero_le (sub_nonneg.mpr ht)
  have h2t : (2 : ℚ) ^ t ≠ 0 := by positivity
  have hdiv : |q| / 2 ^ t = (((|m| * 2 ^ n : ℤ)) : ℚ) := by
    rw [hqdef, abs_mul, abs_of_pos (by positivity : (0 : ℚ) < 2 ^ k)]
    have hk2 : k = t + n := by omega
    rw [hk2, zpow_add₀ (by norm_num), zpow_natCast]
    push_cast
    field_simp
    ring
  have hv : (Dbl.roundHalfEven (|q| / 2 ^ t) : ℚ) * 2 ^ t = |q| := by
    rw [hdiv, roundHalfEven_intCast, ← hdiv]
    field_simp
  unfold Dbl.ofRat
  simp only [← htdef, hv]
  rw [if_neg (not_le.mpr hq)]
  congr 1
  by_cases h0 : 0 ≤ q
  · rw [if_pos h0, abs_of_nonneg h0]
  · rw [if_neg h0, abs_of_neg (not_le.mp h0), neg_neg]

theorem roundHalfEven_eq_of_near (q : ℚ) (z : ℤ) (h : |(z : ℚ) - q| < 1 / 2) :
    Dbl.roundHalfEven q = z := by
  have h1 := abs_roundHalfEven_sub_le q
  rw [abs_le] at h1
  rw [abs_lt] at h
  have hlt : ((Dbl.roundHalfEven q : ℤ) : ℚ) < ((z + 1 : ℤ) : ℚ) := by
    push_cast; linarith
  have hgt : ((z - 1 : ℤ) : ℚ) < ((Dbl.roundHalfEven q : ℤ) : ℚ) := by
    push_cast; linarith
  have a := Int.cast_lt.mp hlt
  have b := Int.cast_lt.mp hgt
  omega

theorem quantum_of_binade (q : ℚ) (e : ℤ) (hlo : (2 : ℚ) ^ e ≤ |q|)
    (hhi : |q| < (2 : ℚ) ^ (e + 1)) (hnorm : -1022 ≤ e) : Dbl.quantum q = e - 52 := by
  have hpos : (0 : ℚ) < |q| := lt_of_lt_of_le (by positivity) hlo
  have h1 : e ≤ Int.log 2 |q| :=
    (Int.zpow_le_iff_le_log (by norm_num : 1 < 2) hpos).mp (by exact_mod_cast hlo)
  have h2 : Int.log 2 |q| < e + 1 :=
    (Int.lt_zpow_iff_log_lt (by norm_num : 1 < 2) hpos).mp (by exact_mod_cast hhi)
  unfold Dbl.quantum
  have : Int.log 2 |q| = e := by omega
  rw [this]
  omega

/-- The value of `ofRat` in the binade `[2^e, 2^(e+1))` of the normal range. -/
theorem ofRat_of_binade (q : ℚ) (e z : ℤ) (hq : 0 ≤ q) (hlo : (2 : ℚ) ^ e ≤ |q|)
    (hhi : |q| < (2 : ℚ) ^ (e + 1)) (hnorm : -1022 ≤ e)
    (hz : |(z : ℚ) - |q| / 2 ^ (e - 52)| < 1 / 2)
    (hfin : (z : ℚ) * 2 ^ (e - 52) < 2 ^ 1024) :
    Dbl.ofRat q = Dbl.fin ((z : ℚ) * 2 ^ (e - 52)) := by
  unfold Dbl.ofRat
  simp only [quantum_of_binade q e hlo hhi hnorm, roundHalfEven_eq_of_near _ z hz]
  rw [if_neg (not_le.mpr hfin), if_pos hq]

theorem ofRat_near (q : ℚ) (hlo : (2 : ℚ) ^ (-1022 : ℤ) ≤ |q|) (hhi : |q| < 2 ^ 1023) :
    ∃ x : ℚ, Dbl.ofRat q = Dbl.fin x ∧ |x - q| ≤ |q| * 2 ^ (-53 : ℤ) := by
  have hpos : (0 : ℚ) < |q| := lt_of_lt_of_le (by positivity) hlo
  have he1 : ((2 : ℕ) : ℚ) ^ Int.log 2 |q| ≤ |q| :=
    Int.zpow_log_le_self (by norm_num) hpos
  have he2 : |q| < ((2 : ℕ) : ℚ) ^ (Int.log 2 |q| + 1) :=
    Int.lt_zpow_succ_log_self (by norm_num) _
  have hnorm : -1022 ≤ Int.log 2 |q| :=
    (Int.zpow_le_iff_le_log (by norm_num : 1 < 2) hpos).mp (by exact_mod_cast hlo)
  set e := Int.log 2 |q| with he
  have hquant : Dbl.quantum q = e - 52 :=
    quantum_of_binade q e (by exact_mod_cast he1) (by exact_mod_cast he2) hnorm
  have h2t : (0 : ℚ) < 2 ^ (e - 52) := by positivity
  set m := Dbl.roundHalfEven (|q| / 2 ^ (e - 52)) with hm
  have herr := abs_roundHalfEven_sub_le (|q| / 2 ^ (e - 52))
  rw [← hm] at herr
  have hv : abs ((m : ℚ) * 2 ^ (e - 52) - |q|) ≤ |q| * 2 ^ (-53 : ℤ) := by
    have h1 : (m : ℚ) * 2 ^ (e - 52) - |q| = ((m : ℚ) - |q| / 2 ^ (e - 52)) * 2 ^ (e - 52) := by
      field_simp
    rw [h1, abs_mul, abs_of_pos h2t]
    have h3 : (2 : ℚ) ^ (e - 52) = 2 ^ e * 2 ^ (-52 : ℤ) := by
      rw [← zpow_add₀ (by norm_num)]; rfl
    have h4 : |(m : ℚ) - |q| / 2 ^ (e - 52)| * 2 ^ (e - 52) ≤ 1 / 2 * 2 ^ (e - 52) :=
      mul_le_mul_of_nonneg_right herr (le_of_lt h2t)
    have h5 : (1 : ℚ) / 2 * 2 ^ (e - 52) = 2 ^ e * 2 ^ (-53 : ℤ) := by
      rw [h3]
      have : (2 : ℚ) ^ (-52 : ℤ) = 2 * 2 ^ (-53 : ℤ) := by norm_num
      rw [this]; ring
    have h6 : (2 : ℚ) ^ e * 2 ^ (-53 : ℤ) ≤ |q| * 2 ^ (-53 : ℤ) :=
      mul_le_mul_of_nonneg_right (by exact_mod_cast he1) (by positivity)
    exact le_trans h4 (le_trans (le_of_eq h5) h6)
  have hfin : (m : ℚ) * 2 ^ (e - 52) < 2 ^ 1024 := by
    have h7 : (m : ℚ) * 2 ^ (e - 52) ≤ |q| + |q| * 2 ^ (-53 : ℤ) := by
      have := (abs_le.mp hv).2
      linarith
    have h8 : (2 : ℚ) ^ (-53 : ℤ) ≤ 1 := by norm_num
    have h9 : |q| * 2 ^ (-53 : ℤ) ≤ |q| := by nlinarith
    have h10 : (2 : ℚ) ^ 1024 = 2 * 2 ^ 1023 := by norm_num
    linarith
  unfold Dbl.ofRat
  simp only [hquant, ← hm]
  rw [if_neg (not_le.mpr hfin)]
  refine ⟨_, rfl, ?_⟩
  by_cases h0 : 0 ≤ q
  · rw [if_pos h0]
    rw [abs_of_nonneg h0] at hv ⊢
    exact hv
  · rw [if_neg h0]
    have hneg := not_le.mp h0
    rw [abs_of_neg hneg] at hv ⊢
    have : -((m : ℚ) * 2 ^ (e - 52)) - q = -((m : ℚ) * 2 ^ (e - 52) - -q) := by ring
    rw [this, abs_neg]
    exact hv

/-- The binary64 quotient of 1000 and 3. -/
theorem ofRat_thousand_thirds :
    Dbl.ofRat (1000 / 3) = Dbl.fin (5864062014805333 / 17592186044416) := by
  have h := ofRat_of_binade (1000 / 3) 8 5864062014805333 (by norm_num)
    (by rw [abs_of_pos (by norm_num)]; norm_num)
    (by rw [abs_of_pos (by norm_num)]; norm_num) (by norm_num)
    (by rw [abs_of_pos (by norm_num : (0 : ℚ) < 1000 / 3)]
        rw [abs_lt]
        constructor <;> norm_num)
    (by norm_num)
  rw [h]
  norm_num

/-- The binary64 quotient of 1000 and 7. -/
theorem ofRat_thousand_sevenths :
    Dbl.ofRat (1000 / 7) = Dbl.fin (5026338869833143 / 35184372088832) := by
  have h := ofRat_of_binade (1000 / 7) 7 5026338869833143 (by norm_num)
    (by rw [abs_of_pos (by norm_num)]; norm_num)
    (by rw [abs_of_pos (by norm_num)]; norm_num) (by norm_num)
    (by rw [abs_of_pos (by norm_num : (0 : ℚ) < 1000 / 7)]
        rw [abs_lt]
        constructor <;> norm_num)
    (by norm_num)
  rw [h]
  norm_num

theorem roundHalfEven_of_tie (z : ℤ) (hz : z % 2 = 0) :
    Dbl.roundHalfEven ((z : ℚ) + 1 / 2) = z := by
  have hfl : ⌊(z : ℚ) + 1 / 2⌋ = z := by
    rw [Int.floor_eq_iff]
    constructor <;> linarith
  have hfr : Int.fract ((z : ℚ) + 1 / 2) = 1 / 2 := by
    rw [Int.fract, hfl]
    ring
  unfold Dbl.roundHalfEven
  rw [hfr, hfl, if_neg (lt_irrefl _), if_neg (lt_irrefl _), if_pos hz]

/-- The binary64 sum of the doubles `1000.0 / 3` and `1000.0 / 7`, a tie that goes to
the even neighbour. -/
theorem add_thirds_sevenths :
    Dbl.add (Dbl.div (Dbl.fin 1000) (Dbl.fin 3)) (Dbl.div (Dbl.fin 1000) (Dbl.fin 7))
      = Dbl.fin (523576965607619 / 1099511627776) := by
  have h3 : Dbl.div (Dbl.fin 1000) (Dbl.fin 3) = Dbl.ofRat (1000 / 3) := by
    simp [Dbl.div]
  have h7 : Dbl.div (Dbl.fin 1000) (Dbl.fin 7) = Dbl.ofRat (1000 / 7) := by
    simp [Dbl.div]
  rw [h3, h7, ofRat_thousand_thirds, ofRat_thousand_sevenths]
  have hsum : (5864062014805333 : ℚ) / 17592186044416 + 5026338869833143 / 35184372088832
      = 16754462899443809 / 35184372088832 := by norm_num
  have hq : Dbl.quantum (16754462899443809 / 35184372088832) = 8 - 52 :=
    quantum_of_binade _ 8 (by rw [abs_of_pos (by norm_num)]; norm_num)
      (by rw [abs_of_pos (by norm_num)]; norm_num) (by norm_num)
  have hscaled : |(16754462899443809 : ℚ) / 35184372088832| / 2 ^ (8 - 52 : ℤ)
      = ((8377231449721904 : ℤ) : ℚ) + 1 / 2 := by
    rw [abs_of_pos (by norm_num)]
    norm_num
  show Dbl.ofRat _ = _
  rw [hsum]
  unfold Dbl.ofRat
  simp only [hq, hscaled, roundHalfEven_of_tie 8377231449721904 (by decide)]
  norm_num

theorem ofRat_intCast (m : ℤ) (hm : |m| < 2 ^ 53) : Dbl.ofRat (m : ℚ) = Dbl.fin (m : ℚ) := by
  have hq : |(m : ℚ) * 2 ^ (0 : ℤ)| < 2 ^ 1024 := by
    have h3 : ((|m| : ℤ) : ℚ) < ((2 ^ 53 : ℤ) : ℚ) := by exact_mod_cast hm
    rw [Int.cast_abs] at h3
    rw [zpow_zero, mul_one]
    refine lt_trans h3 ?_
    norm_num
  have h := ofRat_of_representable m 0 hm (by norm_num) hq
  rw [zpow_zero, mul_one] at h
  exact h

/-! ### The program -/

theorem range_numberOfCameras : List.range numberOfCameras = [0, 1] := by
  decide

theorem round_scale_nonneg (n : Nat) : 0 ≤ round ((n : ℚ) * f) := by
  rw [round_eq]
  apply Int.floor_nonneg.mpr
  have h : (0 : ℚ) ≤ (n : ℚ) := Nat.cast_nonneg n
  unfold f
  linarith

theorem round_640 : round ((640 : ℚ) * f) = 256 := by
  have h : (640 : ℚ) * f = ((256 : ℤ) : ℚ) := by unfold f; norm_num
  rw [h, round_intCast]

theorem round_480 : round ((480 : ℚ) * f) = 192 := by
  have h : (480 : ℚ) * f = ((192 : ℤ) : ℚ) := by unfold f; norm_num
  rw [h, round_intCast]

/-- The assertion of line 86 holds exactly when the two heights agree. -/
theorem geometryAssertion_iff (cams : Nat → VideoCapture) :
    geometryAssertion cams = true ↔ (cams 0).frameHeight = (cams 1).frameHeight := by
  simp [geometryAssertion]

/-- When both cameras open and the heights agree, start-up gets through. -/
theorem startup_ready (interp : Interpolation) (uninit : Nat → Nat → Nat)
    (cams : Nat → VideoCapture) (h0 : (cams 0).opened = true) (h1 : (cams 1).opened = true)
    (hh : (cams 0).frameHeight = (cams 1).frameHeight) :
    ∃ st, startup interp uninit cams = Startup.ready st ∧
      (∀ i, st.imgResized i =
        resize interp ⟨(cams 0).frameWidth, (cams 0).frameHeight, CV_8UC1, uninit⟩ f f) ∧
      st.combo.cols = (st.imgResized 0).cols * 2 ∧
      st.combo.rows = (st.imgResized 0).rows ∧
      st.combo.type = CV_8UC1 ∧
      st.roi 0 = ⟨0, 0, (st.imgResized 0).cols, (st.imgResized 0).rows⟩ ∧
      st.roi 1 = ⟨(st.imgResized 0).cols, 0, (st.imgResized 0).cols, (st.imgResized 0).rows⟩ ∧
      st.frameCount = 0 ∧ st.sum_fps = Dbl.fin 0 ∧
      Event.namedWindow ∈ st.trace := by
  have hg : geometryAssertion cams = true := (geometryAssertion_iff cams).mpr hh
  simp only [startup, range_numberOfCameras, openCameras, h0, h1, hg, if_true]
  refine ⟨_, rfl, ?_⟩
  simp [numberOfCameras, displayImages, setAt, resize]

/-- The per-camera step leaves the slot rectangles as they were. -/
theorem parallelFor_roi (interp : Interpolation) (inp : IterationInput) (order : List Nat)
    (st : ProgramState) : (parallelFor interp inp order st).roi = st.roi := by
  induction order generalizing st with
  | nil => rfl
  | cons i rest ih =>
      have h := ih (cameraTask interp inp st i)
      simpa [parallelFor, cameraTask] using h

theorem untilKeyPoll_roi (interp : Interpolation) (st : ProgramState)
    (inp : IterationInput) : (untilKeyPoll interp st inp).roi = st.roi := by
  simp [untilKeyPoll, countAndShow, displayImages, parallelFor_roi]

theorem untilKeyPoll_frameCount (interp : Interpolation) (st : ProgramState)
    (inp : IterationInput) :
    (untilKeyPoll interp st inp).frameCount = wrapInt32 (st.frameCount + 1) := by
  simp [untilKeyPoll, countAndShow, displayImages, parallelFor, range_numberOfCameras,
    cameraTask]

theorem untilKeyPoll_sum_fps (interp : Interpolation) (st : ProgramState)
    (inp : IterationInput) : (untilKeyPoll interp st inp).sum_fps = st.sum_fps := by
  simp [untilKeyPoll, countAndShow, displayImages, parallelFor, range_numberOfCameras,
    cameraTask]

theorem untilKeyPoll_timeStart (interp : Interpolation) (st : ProgramState)
    (inp : IterationInput) :
    (untilKeyPoll interp st inp).timeStart = toDWORD inp.tickStart := by
  simp [untilKeyPoll, countAndShow, displayImages, parallelFor, range_numberOfCameras,
    cameraTask]

theorem untilKeyPoll_trace (interp : Interpolation) (st : ProgramState)
    (inp : IterationInput) :
    (untilKeyPoll interp st inp).trace = st.trace ++ passEvents st.roi := by
  simp [untilKeyPoll, countAndShow, displayImages, parallelFor, range_numberOfCameras,
    cameraTask, passEvents]

theorem loopBody_of_escape (interp : Interpolation) (st : ProgramState)
    (inp : IterationInput) (hk : inp.key = VK_ESCAPE) :
    loopBody interp st inp =
      ({ untilKeyPoll interp st inp with
          trace := (untilKeyPoll interp st inp).trace ++ [Event.destroyWindow] }, true) := by
  simp [loopBody, hk]

theorem loopBody_of_other_key (interp : Interpolation) (st : ProgramState)
    (inp : IterationInput) (hk : inp.key ≠ VK_ESCAPE) :
    loopBody interp st inp = (measure inp.tickEnd (untilKeyPoll interp st inp), false) := by
  simp [loopBody, hk]

theorem loopBody_roi (interp : Interpolation) (st : ProgramState) (inp : IterationInput) :
    (loopBody interp st inp).1.roi = st.roi := by
  by_cases hk : inp.key = VK_ESCAPE
  · rw [loopBody_of_escape interp st inp hk]
    exact untilKeyPoll_roi interp st inp
  · rw [loopBody_of_other_key interp st inp hk]
    exact untilKeyPoll_roi interp st inp

theorem loopBody_flag (interp : Interpolation) (st : ProgramState) (inp : IterationInput) :
    (loopBody interp st inp).2 = true ↔ inp.key = VK_ESCAPE := by
  unfold loopBody
  by_cases hk : inp.key = VK_ESCAPE <;> simp [hk]

theorem loopBody_frameCount (interp : Interpolation) (st : ProgramState)
    (inp : IterationInput) :
    (loopBody interp st inp).1.frameCount = wrapInt32 (st.frameCount + 1) := by
  by_cases hk : inp.key = VK_ESCAPE
  · rw [loopBody_of_escape interp st inp hk]
    exact untilKeyPoll_frameCount interp st inp
  · rw [loopBody_of_other_key interp st inp hk]
    exact untilKeyPoll_frameCount interp st inp

theorem loopBody_trace (interp : Interpolation) (st : ProgramState) (inp : IterationInput) :
    ∃ tail, (loopBody interp st inp).1.trace = st.trace ++ passEvents st.roi ++ tail := by
  by_cases hk : inp.key = VK_ESCAPE
  · rw [loopBody_of_escape interp st inp hk]
    exact ⟨[Event.destroyWindow], by simp [untilKeyPoll_trace]⟩
  · rw [loopBody_of_other_key interp st inp hk]
    have h : (measure inp.tickEnd (untilKeyPoll interp st inp)).trace =
        (untilKeyPoll interp st inp).trace ++
          [Event.coutFps ((untilKeyPoll interp st inp).frameRate 0)
            ((untilKeyPoll interp st inp).frameRate 1) (untilKeyPoll interp st inp).frameCount
            (measure inp.tickEnd (untilKeyPoll interp st inp)).fps
            (measure inp.tickEnd (untilKeyPoll interp st inp)).avg_fps] := rfl
    exact ⟨_, by rw [h, untilKeyPoll_trace]⟩

theorem acquisitionLoop_roi (interp : Interpolation) (inputs : List IterationInput)
    (st : ProgramState) : (acquisitionLoop interp st inputs).1.roi = st.roi := by
  induction inputs generalizing st with
  | nil => rfl
  | cons inp rest ih =>
      unfold acquisitionLoop
      rcases hb : loopBody interp st inp with ⟨st1, b⟩
      have hr : st1.roi = st.roi := by
        have := loopBody_roi interp st inp
        rw [hb] at this
        exact this
      cases b
      · simp only []
        rw [ih st1, hr]
      · simpa using hr

theorem acquisitionLoop_trace (interp : Interpolation) (inputs : List IterationInput)
    (st : ProgramState) :
    ∃ tail, (acquisitionLoop interp st inputs).1.trace = st.trace ++ tail := by
  induction inputs generalizing st with
  | nil => exact ⟨[], by simp [acquisitionLoop]⟩
  | cons inp rest ih =>
      unfold acquisitionLoop
      rcases hb : loopBody interp st inp with ⟨st1, b⟩
      obtain ⟨t1, ht1⟩ := loopBody_trace interp st inp
      rw [hb] at ht1
      simp only [] at ht1
      cases b
      · obtain ⟨t2, ht2⟩ := ih st1
        exact ⟨passEvents st.roi ++ t1 ++ t2, by
          simp only []
          rw [ht2, ht1]
          simp⟩
      · exact ⟨passEvents st.roi ++ t1, by
          simp only []
          rw [ht1]
          simp⟩

theorem acquisitionLoop_first_pass (interp : Interpolation) (inp : IterationInput)
    (rest : List IterationInput) (st : ProgramState) :
    ∃ tail, (acquisitionLoop interp st (inp :: rest)).1.trace
      = st.trace ++ passEvents st.roi ++ tail := by
  unfold acquisitionLoop
  rcases hb : loopBody interp st inp with ⟨st1, b⟩
  obtain ⟨t1, ht1⟩ := loopBody_trace interp st inp
  rw [hb] at ht1
  simp only [] at ht1
  cases b
  · obtain ⟨t2, ht2⟩ := acquisitionLoop_trace interp rest st1
    exact ⟨t1 ++ t2, by
      simp only []
      rw [ht2, ht1]
      simp⟩
  · exact ⟨t1, by
      simp only []
      rw [ht1]⟩

/-- The trace of `main` once start-up got through. -/
theorem main_trace_of_ready (interp : Interpolation) (uninit : Nat → Nat → Nat)
    (cams : Nat → VideoCapture) (inputs : List IterationInput) (st : ProgramState)
    (hs : startup interp uninit cams = Startup.ready st) :
    ∃ tail, (main interp uninit cams inputs).trace
      = (acquisitionLoop interp st inputs).1.trace ++ tail := by
  unfold main
  rw [hs]
  simp only []
  rcases hb : acquisitionLoop interp st inputs with ⟨st1, b⟩
  cases b
  · exact ⟨[], by simp⟩
  · exact ⟨[Event.coutVersion, Event.systemPause], by simp⟩

/-- The outcome of `main` once start-up got through. -/
theorem main_outcome_of_ready (interp : Interpolation) (uninit : Nat → Nat → Nat)
    (cams : Nat → VideoCapture) (inputs : List IterationInput) (st : ProgramState)
    (hs : startup interp uninit cams = Startup.ready st) :
    (main interp uninit cams inputs).outcome =
      if (acquisitionLoop interp st inputs).2 = true then Outcome.returned EXIT_SUCCESS
      else Outcome.running := by
  unfold main
  rw [hs]
  simp only []
  rcases hb : acquisitionLoop interp st inputs with ⟨st1, b⟩
  cases b <;> simp

/-! ## Start-up -/

/-- C1 (the code at the failing input): camera 0 reports 640 by 480 and camera 1
reports 320 by 480, both open.  The widths differ, yet the condition of the assertion
in line 86 is true, `main` is not aborted, the display window is created, and the first
pass of the loop reads a frame from each camera and shows the composite image. -/
theorem width_mismatch_passes_assertion :
    (widthMismatch 0).opened = true ∧ (widthMismatch 1).opened = true ∧
    (widthMismatch 1).frameWidth ≠ (widthMismatch 0).frameWidth ∧
    geometryAssertion widthMismatch = true ∧
    ∀ (interp : Interpolation) (uninit : Nat → Nat → Nat) (inp : IterationInput)
      (rest : List IterationInput),
      (main interp uninit widthMismatch (inp :: rest)).outcome ≠ Outcome.assertionAbort ∧
      Event.namedWindow ∈ (main interp uninit widthMismatch (inp :: rest)).trace ∧
      Event.grab 0 ∈ (main interp uninit widthMismatch (inp :: rest)).trace ∧
      Event.grab 1 ∈ (main interp uninit widthMismatch (inp :: rest)).trace ∧
      Event.imshow ∈ (main interp uninit widthMismatch (inp :: rest)).trace := by
  refine ⟨rfl, rfl, by decide, by decide, ?_⟩
  intro interp uninit inp rest
  obtain ⟨st, hs, -, -, -, -, -, -, -, -, hwin⟩ :=
    startup_ready interp uninit widthMismatch rfl rfl rfl
  obtain ⟨t1, ht1⟩ := main_trace_of_ready interp uninit widthMismatch (inp :: rest) st hs
  obtain ⟨t2, ht2⟩ := acquisitionLoop_first_pass interp inp rest st
  have ho := main_outcome_of_ready interp uninit widthMismatch (inp :: rest) st hs
  refine ⟨?_, ?_, ?_, ?_, ?_⟩
  · rw [ho]
    split <;> simp
  · rw [ht1, ht2]
    simp [hwin]
  · rw [ht1, ht2]
    simp [passEvents]
  · rw [ht1, ht2]
    simp [passEvents]
  · rw [ht1, ht2]
    simp [passEvents]

/-- C2: if camera `i` (0 or 1) is the first camera that does not open, `main` returns
`EXIT_FAILURE`, which is not zero; its whole trace is the attempts to open cameras
`0 .. i` followed by the message naming `i`, so no camera of higher index is opened, the
window is not created, and no pass of the loop runs (no frame read, no image shown,
no key polled). -/
theorem first_open_failure_exits (interp : Interpolation) (uninit : Nat → Nat → Nat)
    (cams : Nat → VideoCapture) (inputs : List IterationInput) (i : Nat)
    (hi : i < numberOfCameras) (hfail : (cams i).opened = false)
    (hprev : ∀ j, j < i → (cams j).opened = true) :
    (main interp uninit cams inputs).outcome = Outcome.returned EXIT_FAILURE ∧
    EXIT_FAILURE ≠ 0 ∧
    (main interp uninit cams inputs).trace =
      (List.range (i + 1)).map Event.openCamera ++ [Event.cerrCannotOpen i] ∧
    (∀ j, i < j → Event.openCamera j ∉ (main interp uninit cams inputs).trace) ∧
    Event.namedWindow ∉ (main interp uninit cams inputs).trace ∧
    (∀ k, Event.grab k ∉ (main interp uninit cams inputs).trace) ∧
    Event.imshow ∉ (main interp uninit cams inputs).trace ∧
    Event.waitKey 10 ∉ (main interp uninit cams inputs).trace ∧
    (main interp uninit cams inputs).final = none := by
  have hcases : i = 0 ∨ i = 1 := by
    unfold numberOfCameras at hi; omega
  rcases hcases with rfl | rfl
  · simp [main, startup, range_numberOfCameras, openCameras, hfail, EXIT_FAILURE,
      List.range_succ]
    intro j hj
    omega
  · have h0 : (cams 0).opened = true := hprev 0 (by decide)
    simp [main, startup, range_numberOfCameras, openCameras, hfail, h0, EXIT_FAILURE,
      List.range_succ]
    intro j hj
    omega

theorem first_open_failure_exits_witness :
    (main nearest (fun _ _ => 0) secondDead [quietPass 0 100 27]).outcome
        = Outcome.returned EXIT_FAILURE ∧
    EXIT_FAILURE ≠ 0 ∧
    (main nearest (fun _ _ => 0) secondDead [quietPass 0 100 27]).trace =
      (List.range (1 + 1)).map Event.openCamera ++ [Event.cerrCannotOpen 1] ∧
    (∀ j, 1 < j →
      Event.openCamera j ∉ (main nearest (fun _ _ => 0) secondDead [quietPass 0 100 27]).trace) ∧
    Event.namedWindow ∉ (main nearest (fun _ _ => 0) secondDead [quietPass 0 100 27]).trace ∧
    (∀ k, Event.grab k ∉ (main nearest (fun _ _ => 0) secondDead [quietPass 0 100 27]).trace) ∧
    Event.imshow ∉ (main nearest (fun _ _ => 0) secondDead [quietPass 0 100 27]).trace ∧
    Event.waitKey 10 ∉ (main nearest (fun _ _ => 0) secondDead [quietPass 0 100 27]).trace ∧
    (main nearest (fun _ _ => 0) secondDead [quietPass 0 100 27]).final = none :=
  first_open_failure_exits nearest (fun _ _ => 0) secondDead [quietPass 0 100 27] 1
    (by decide) (by rfl) (by intro j hj; have : j = 0 := by omega
                             subst this; rfl)

/-- C3: when both cameras open and report the same height and width, start-up gets
through to the loop; with `f = 0.4` each resized buffer is `round(cols*f)` by
`round(rows*f)` and the composite buffer is `2*round(cols*f)` by `round(rows*f)`.  For
640 by 480 these are 256 by 192 and 512 by 192. -/
theorem startup_sizes (interp : Interpolation) (uninit : Nat → Nat → Nat)
    (cams : Nat → VideoCapture) (h0 : (cams 0).opened = true) (h1 : (cams 1).opened = true)
    (hh : (cams 1).frameHeight = (cams 0).frameHeight)
    (hw : (cams 1).frameWidth = (cams 0).frameWidth) :
    f = 0.4 ∧
    ∃ st, startup interp uninit cams = Startup.ready st ∧
      (∀ i, i < numberOfCameras →
        ((st.imgResized i).cols : Int) = round (((cams i).frameWidth : ℚ) * f) ∧
        ((st.imgResized i).rows : Int) = round (((cams i).frameHeight : ℚ) * f)) ∧
      (st.combo.cols : Int) = 2 * round (((cams 0).frameWidth : ℚ) * f) ∧
      (st.combo.rows : Int) = round (((cams 0).frameHeight : ℚ) * f) ∧
      ((cams 0).frameWidth = 640 → (cams 0).frameHeight = 480 →
        (∀ i, i < numberOfCameras →
          (st.imgResized i).cols = 256 ∧ (st.imgResized i).rows = 192) ∧
        st.combo.cols = 512 ∧ st.combo.rows = 192) := by
  obtain ⟨st, hs, hres, hcc, hcr, -, -, -, -, -, -⟩ :=
    startup_ready interp uninit cams h0 h1 hh.symm
  have hcols : ∀ i, ((st.imgResized i).cols : Int) = round (((cams 0).frameWidth : ℚ) * f) := by
    intro i
    rw [hres i]
    exact Int.toNat_of_nonneg (round_scale_nonneg _)
  have hrows : ∀ i, ((st.imgResized i).rows : Int) = round (((cams 0).frameHeight : ℚ) * f) := by
    intro i
    rw [hres i]
    exact Int.toNat_of_nonneg (round_scale_nonneg _)
  have hsame : ∀ i, i < numberOfCameras →
      (cams i).frameWidth = (cams 0).frameWidth ∧ (cams i).frameHeight = (cams 0).frameHeight := by
    intro i hi
    have hcases : i = 0 ∨ i = 1 := by
      unfold numberOfCameras at hi; omega
    rcases hcases with rfl | rfl
    · exact ⟨rfl, rfl⟩
    · exact ⟨hw, hh⟩
  refine ⟨by unfold f; norm_num, st, hs, ?_, ?_, ?_, ?_⟩
  · intro i hi
    rw [(hsame i hi).1, (hsame i hi).2]
    exact ⟨hcols i, hrows i⟩
  · rw [hcc]
    push_cast
    rw [hcols 0]
    ring
  · rw [hcr]
    exact hrows 0
  · intro h640 h480
    have c : ∀ i, (st.imgResized i).cols = 256 := by
      intro i
      have h := hcols i
      rw [h640] at h
      have h2 : ((640 : ℕ) : ℚ) = 640 := by norm_num
      rw [h2, round_640] at h
      exact_mod_cast h
    have r : ∀ i, (st.imgResized i).rows = 192 := by
      intro i
      have h := hrows i
      rw [h480] at h
      have h2 : ((480 : ℕ) : ℚ) = 480 := by norm_num
      rw [h2, round_480] at h
      exact_mod_cast h
    refine ⟨fun i _ => ⟨c i, r i⟩, ?_, ?_⟩
    · rw [hcc, c 0]
    · rw [hcr, r 0]

theorem startup_sizes_witness :
    f = 0.4 ∧
    ∃ st, startup nearest (fun _ _ => 0) twoVga = Startup.ready st ∧
      (∀ i, i < numberOfCameras →
        ((st.imgResized i).cols : Int) = round (((twoVga i).frameWidth : ℚ) * f) ∧
        ((st.imgResized i).rows : Int) = round (((twoVga i).frameHeight : ℚ) * f)) ∧
      (st.combo.cols : Int) = 2 * round (((twoVga 0).frameWidth : ℚ) * f) ∧
      (st.combo.rows : Int) = round (((twoVga 0).frameHeight : ℚ) * f) ∧
      ((twoVga 0).frameWidth = 640 → (twoVga 0).frameHeight = 480 →
        (∀ i, i < numberOfCameras →
          (st.imgResized i).cols = 256 ∧ (st.imgResized i).rows = 192) ∧
        st.combo.cols = 512 ∧ st.combo.rows = 192) :=
  startup_sizes nearest (fun _ _ => 0) twoVga rfl rfl rfl rfl

/-! ## Leaving the loop -/

theorem acquisitionLoop_flag (interp : Interpolation) (inputs : List IterationInput)
    (st : ProgramState) :
    (acquisitionLoop interp st inputs).2 = true ↔ ∃ inp ∈ inputs, inp.key = VK_ESCAPE := by
  induction inputs generalizing st with
  | nil => simp [acquisitionLoop]
  | cons inp rest ih =>
      by_cases hk : inp.key = VK_ESCAPE
      · simp [acquisitionLoop, loopBody_of_escape interp st inp hk, hk]
      · simp [acquisitionLoop, loopBody_of_other_key interp st inp hk, hk, ih]

/-- C8: a pass of the loop takes `break` exactly when the polled key is 27; the key is
polled after the image was shown; with any other key, the no-key value -1 included,
the loop goes on with the next pass; and once both cameras are open with equal
heights, `main` returns `EXIT_SUCCESS`, which is 0, exactly when some supplied pass
polls 27, and is still running otherwise. -/
theorem loop_leaves_iff_escape (interp : Interpolation) (uninit : Nat → Nat → Nat)
    (cams : Nat → VideoCapture) (inputs : List IterationInput)
    (h0 : (cams 0).opened = true) (h1 : (cams 1).opened = true)
    (hh : (cams 0).frameHeight = (cams 1).frameHeight) :
    VK_ESCAPE = 27 ∧ EXIT_SUCCESS = 0 ∧
    (∀ (st : ProgramState) (inp : IterationInput),
      ((loopBody interp st inp).2 = true ↔ inp.key = 27)) ∧
    (∀ (st : ProgramState) (inp : IterationInput),
      (untilKeyPoll interp st inp).trace = st.trace ++
        [Event.grab 0, Event.copyTo 0 (st.roi 0), Event.grab 1, Event.copyTo 1 (st.roi 1),
          Event.imshow, Event.moveWindow 780 50, Event.waitKey 10]) ∧
    (∀ (st : ProgramState) (inp : IterationInput) (rest : List IterationInput),
      inp.key ≠ 27 →
      acquisitionLoop interp st (inp :: rest)
        = acquisitionLoop interp (loopBody interp st inp).1 rest) ∧
    (∀ (st : ProgramState) (inp : IterationInput) (rest : List IterationInput),
      inp.key = 27 →
      acquisitionLoop interp st (inp :: rest) = ((loopBody interp st inp).1, true) ∧
      (loopBody interp st inp).1.trace =
        (untilKeyPoll interp st inp).trace ++ [Event.destroyWindow]) ∧
    ((main interp uninit cams inputs).outcome = Outcome.returned EXIT_SUCCESS
      ↔ ∃ inp ∈ inputs, inp.key = 27) ∧
    ((∀ inp ∈ inputs, inp.key ≠ 27) →
      (main interp uninit cams inputs).outcome = Outcome.running) := by
  obtain ⟨st0, hs, -⟩ := startup_ready interp uninit cams h0 h1 hh
  have ho := main_outcome_of_ready interp uninit cams inputs st0 hs
  have hf := acquisitionLoop_flag interp inputs st0
  have hesc : VK_ESCAPE = 27 := rfl
  refine ⟨rfl, rfl, ?_, ?_, ?_, ?_, ?_, ?_⟩
  · intro st inp
    rw [← hesc]
    exact loopBody_flag interp st inp
  · intro st inp
    exact untilKeyPoll_trace interp st inp
  · intro st inp rest hk
    rw [← hesc] at hk
    simp [acquisitionLoop, loopBody_of_other_key interp st inp hk]
  · intro st inp rest hk
    rw [← hesc] at hk
    simp [acquisitionLoop, loopBody_of_escape interp st inp hk]
  · rw [ho, ← hesc, ← hf]
    by_cases hb : (acquisitionLoop interp st0 inputs).2 = true <;> simp [hb]
  · intro hno
    rw [ho]
    have : ¬ (acquisitionLoop interp st0 inputs).2 = true := by
      rw [hf]
      rintro ⟨inp, hin, hk⟩
      exact hno inp hin hk
    simp [this]

theorem loop_leaves_iff_escape_witness :
    VK_ESCAPE = 27 ∧ EXIT_SUCCESS = 0 ∧
    (∀ (st : ProgramState) (inp : IterationInput),
      ((loopBody nearest st inp).2 = true ↔ inp.key = 27)) ∧
    (∀ (st : ProgramState) (inp : IterationInput),
      (untilKeyPoll nearest st inp).trace = st.trace ++
        [Event.grab 0, Event.copyTo 0 (st.roi 0), Event.grab 1, Event.copyTo 1 (st.roi 1),
          Event.imshow, Event.moveWindow 780 50, Event.waitKey 10]) ∧
    (∀ (st : ProgramState) (inp : IterationInput) (rest : List IterationInput),
      inp.key ≠ 27 →
      acquisitionLoop nearest st (inp :: rest)
        = acquisitionLoop nearest (loopBody nearest st inp).1 rest) ∧
    (∀ (st : ProgramState) (inp : IterationInput) (rest : List IterationInput),
      inp.key = 27 →
      acquisitionLoop nearest st (inp :: rest) = ((loopBody nearest st inp).1, true) ∧
      (loopBody nearest st inp).1.trace =
        (untilKeyPoll nearest st inp).trace ++ [Event.destroyWindow]) ∧
    ((main nearest (fun _ _ => 0) twoVga twoPasses).outcome = Outcome.returned EXIT_SUCCESS
      ↔ ∃ inp ∈ twoPasses, inp.key = 27) ∧
    ((∀ inp ∈ twoPasses, inp.key ≠ 27) →
      (main nearest (fun _ _ => 0) twoVga twoPasses).outcome = Outcome.running) :=
  loop_leaves_iff_escape nearest (fun _ _ => 0) twoVga twoPasses rfl rfl rfl

/-! ## Frame-rate bookkeeping -/

theorem dwordSub_of_gap (s e d : Nat) (he : e = s + d) (hlt : e < DWORD_SIZE) :
    dwordSub (toDWORD e) (toDWORD s) = d := by
  subst he
  simp only [dwordSub, toDWORD, DWORD_SIZE] at *
  omega

theorem dwordSub_self (s : Nat) : dwordSub (toDWORD s) (toDWORD s) = 0 := by
  simp only [dwordSub, toDWORD, DWORD_SIZE]
  omega

theorem loopBody_fps (interp : Interpolation) (st : ProgramState) (inp : IterationInput)
    (hk : inp.key ≠ VK_ESCAPE) :
    (loopBody interp st inp).1.fps = sampleOf inp ∧
    (loopBody interp st inp).1.sum_fps = Dbl.add st.sum_fps (sampleOf inp) ∧
    (loopBody interp st inp).1.avg_fps =
      Dbl.div (Dbl.add st.sum_fps (sampleOf inp)) (Dbl.ofInt (wrapInt32 (st.frameCount + 1))) := by
  rw [loopBody_of_other_key interp st inp hk]
  simp [measure, sampleOf, untilKeyPoll_timeStart, untilKeyPoll_sum_fps,
    untilKeyPoll_frameCount]

/-- The frame rate of a pass with a gap of `d > 0` milliseconds is the binary64
quotient of 1000 and `d`. -/
theorem fps_of_gap (interp : Interpolation) (st : ProgramState) (inp : IterationInput)
    (d : Nat) (hd : 0 < d) (hgap : inp.tickEnd = inp.tickStart + d)
    (hdword : inp.tickEnd < DWORD_SIZE) (hk : inp.key ≠ VK_ESCAPE) :
    (loopBody interp st inp).1.fps = Dbl.ofRat (1000 / (d : ℚ)) := by
  rw [(loopBody_fps interp st inp hk).1]
  unfold sampleOf instantFps
  rw [dwordSub_of_gap inp.tickStart inp.tickEnd d hgap hdword]
  have hne : (d : ℚ) ≠ 0 := by
    exact_mod_cast (Nat.pos_iff_ne_zero.mp hd)
  simp [Dbl.div, Dbl.ofNat, hne]

/-- C7 (amended): in a pass whose end tick count is `d > 0` milliseconds after its
start tick count (both of them `DWORD` values) and which goes on after the key poll,
the frame rate computed in line 144 is the binary64 quotient of 1000 and `d`: a finite
double within `2^-53` of `1000 / d` in relative terms, and `1000 / d` itself whenever
`1000 / d` is a binary64 number `m * 2^k`; for `d = 100` it is 10. -/
theorem instant_fps_rounded (interp : Interpolation) (st : ProgramState)
    (inp : IterationInput) (d : Nat) (hd : 0 < d) (hgap : inp.tickEnd = inp.tickStart + d)
    (hdword : inp.tickEnd < DWORD_SIZE) (hk : inp.key ≠ VK_ESCAPE) :
    (loopBody interp st inp).1.fps = Dbl.ofRat (1000 / (d : ℚ)) ∧
    (∃ x : ℚ, (loopBody interp st inp).1.fps = Dbl.fin x ∧
      |x - 1000 / (d : ℚ)| ≤ 1000 / (d : ℚ) * 2 ^ (-53 : ℤ)) ∧
    (∀ m k : ℤ, |m| < 2 ^ 53 → -1074 ≤ k → 1000 / (d : ℚ) = (m : ℚ) * 2 ^ k →
      (loopBody interp st inp).1.fps = Dbl.fin (1000 / (d : ℚ))) ∧
    (d = 100 → (loopBody interp st inp).1.fps = Dbl.fin 10) := by
  have hfps := fps_of_gap interp st inp d hd hgap hdword hk
  have hdpos : (0 : ℚ) < (d : ℚ) := by exact_mod_cast hd
  have hqpos : (0 : ℚ) < 1000 / (d : ℚ) := by positivity
  have hdle : (d : ℚ) ≤ 2 ^ 32 := by
    have h1 : d ≤ 2 ^ 32 := by
      unfold DWORD_SIZE at hdword
      omega
    exact_mod_cast h1
  have hd1 : (1 : ℚ) ≤ (d : ℚ) := by exact_mod_cast hd
  have hhi : 1000 / (d : ℚ) ≤ 1000 := by
    rw [div_le_iff₀ hdpos]
    nlinarith
  have hlo : (1 : ℚ) / 2 ^ 32 ≤ 1000 / (d : ℚ) := by
    rw [div_le_div_iff₀ (by positivity) hdpos]
    nlinarith
  have hsmall : |1000 / (d : ℚ)| < 2 ^ 1024 := by
    rw [abs_of_pos hqpos]
    refine lt_of_le_of_lt hhi ?_
    norm_num
  refine ⟨hfps, ?_, ?_, ?_⟩
  · obtain ⟨x, hx, hbound⟩ := ofRat_near (1000 / (d : ℚ))
      (by rw [abs_of_pos hqpos]
          refine le_trans ?_ hlo
          norm_num)
      (by rw [abs_of_pos hqpos]
          refine lt_of_le_of_lt hhi ?_
          norm_num)
    rw [abs_of_pos hqpos] at hbound
    exact ⟨x, by rw [hfps, hx], hbound⟩
  · intro m k hm hk2 hrep
    rw [hfps, hrep]
    apply ofRat_of_representable m k hm hk2
    rw [← hrep]
    exact hsmall
  · intro h100
    rw [hfps, h100]
    have h10 : (1000 : ℚ) / ((100 : ℕ) : ℚ) = ((10 : ℤ) : ℚ) := by norm_num
    rw [h10, ofRat_intCast 10 (by norm_num)]
    norm_num

theorem instant_fps_rounded_witness :
    (loopBody nearest exampleState (quietPass 5000 5100 (-1))).1.fps
      = Dbl.ofRat (1000 / ((100 : ℕ) : ℚ)) ∧
    (∃ x : ℚ, (loopBody nearest exampleState (quietPass 5000 5100 (-1))).1.fps = Dbl.fin x ∧
      |x - 1000 / ((100 : ℕ) : ℚ)| ≤ 1000 / ((100 : ℕ) : ℚ) * 2 ^ (-53 : ℤ)) ∧
    (∀ m k : ℤ, |m| < 2 ^ 53 → -1074 ≤ k → 1000 / ((100 : ℕ) : ℚ) = (m : ℚ) * 2 ^ k →
      (loopBody nearest exampleState (quietPass 5000 5100 (-1))).1.fps
        = Dbl.fin (1000 / ((100 : ℕ) : ℚ))) ∧
    (100 = 100 →
      (loopBody nearest exampleState (quietPass 5000 5100 (-1))).1.fps = Dbl.fin 10) :=
  instant_fps_rounded nearest exampleState (quietPass 5000 5100 (-1)) 100 (by decide)
    (by rfl) (by decide) (by decide)

/-- C7 (as stated, refuted): a pass that starts at tick 5000, ends at tick 5003 and
polls no key has a gap of 3 ms, and the frame rate computed in line 144 is the double
`5864062014805333 / 2^44`, which is not `1000 / 3`. -/
theorem instant_fps_three_ms :
    (quietPass 5000 5003 (-1)).tickEnd = (quietPass 5000 5003 (-1)).tickStart + 3 ∧
    (quietPass 5000 5003 (-1)).tickEnd < DWORD_SIZE ∧
    (quietPass 5000 5003 (-1)).key ≠ VK_ESCAPE ∧
    (loopBody nearest exampleState (quietPass 5000 5003 (-1))).1.fps
      = Dbl.fin (5864062014805333 / 17592186044416) ∧
    (loopBody nearest exampleState (quietPass 5000 5003 (-1))).1.fps
      ≠ Dbl.fin (1000 / ((3 : ℕ) : ℚ)) := by
  have hfps := fps_of_gap nearest exampleState (quietPass 5000 5003 (-1)) 3 (by decide)
    (by rfl) (by decide) (by decide)
  have h3 : (1000 : ℚ) / ((3 : ℕ) : ℚ) = 1000 / 3 := by norm_num
  rw [h3] at hfps
  refine ⟨rfl, by decide, by decide, ?_, ?_⟩
  · rw [hfps, ofRat_thousand_thirds]
  · rw [hfps, ofRat_thousand_thirds]
    intro h
    have h2 := Dbl.fin.inj h
    norm_num at h2

/-- C9: in a pass whose start and end tick counts are equal and whose polled key is not
ESC, the loop goes on and line 144 divides 1000 by an elapsed time of zero: nothing
stands in for the quotient, `fps` is the IEEE result of that division, plus infinity,
and it is added to `sum_fps`. -/
theorem zero_elapsed_division (interp : Interpolation) (st : ProgramState)
    (inp : IterationInput) (hsame : inp.tickEnd = inp.tickStart)
    (hk : inp.key ≠ VK_ESCAPE) :
    (loopBody interp st inp).2 = false ∧
    dwordSub (toDWORD inp.tickEnd) (toDWORD inp.tickStart) = 0 ∧
    (loopBody interp st inp).1.fps = Dbl.div (Dbl.fin 1000) (Dbl.ofNat 0) ∧
    (loopBody interp st inp).1.fps = Dbl.posInf ∧
    (loopBody interp st inp).1.sum_fps = Dbl.add st.sum_fps Dbl.posInf := by
  have hz : dwordSub (toDWORD inp.tickEnd) (toDWORD inp.tickStart) = 0 := by
    rw [hsame]
    exact dwordSub_self _
  have hsample : sampleOf inp = Dbl.div (Dbl.fin 1000) (Dbl.ofNat 0) := by
    unfold sampleOf instantFps
    rw [hz]
  have hinf : Dbl.div (Dbl.fin 1000) (Dbl.ofNat 0) = Dbl.posInf := by
    simp [Dbl.div, Dbl.ofNat]
  obtain ⟨hf, hsum, -⟩ := loopBody_fps interp st inp hk
  refine ⟨?_, hz, ?_, ?_, ?_⟩
  · rw [loopBody_of_other_key interp st inp hk]
  · rw [hf, hsample]
  · rw [hf, hsample, hinf]
  · rw [hsum, hsample, hinf]

theorem zero_elapsed_division_witness :
    (loopBody nearest exampleState (quietPass 7000 7000 (-1))).2 = false ∧
    dwordSub (toDWORD (quietPass 7000 7000 (-1)).tickEnd)
      (toDWORD (quietPass 7000 7000 (-1)).tickStart) = 0 ∧
    (loopBody nearest exampleState (quietPass 7000 7000 (-1))).1.fps
      = Dbl.div (Dbl.fin 1000) (Dbl.ofNat 0) ∧
    (loopBody nearest exampleState (quietPass 7000 7000 (-1))).1.fps = Dbl.posInf ∧
    (loopBody nearest exampleState (quietPass 7000 7000 (-1))).1.sum_fps
      = Dbl.add exampleState.sum_fps Dbl.posInf :=
  zero_elapsed_division nearest exampleState (quietPass 7000 7000 (-1)) rfl (by decide)

theorem wrapInt32_of_small (k : Nat) (hk : k < 2 ^ 31) : wrapInt32 (k : Int) = k := by
  unfold wrapInt32
  omega

/-- The counters after passes none of which polls ESC. -/
theorem acquisitionLoop_no_escape (interp : Interpolation) (inputs : List IterationInput)
    (st : ProgramState) (hno : ∀ inp ∈ inputs, inp.key ≠ VK_ESCAPE)
    (hint : wrapInt32 st.frameCount = st.frameCount) :
    (acquisitionLoop interp st inputs).2 = false ∧
    (acquisitionLoop interp st inputs).1.frameCount
      = wrapInt32 (st.frameCount + inputs.length) ∧
    (acquisitionLoop interp st inputs).1.sum_fps
      = (inputs.map sampleOf).foldl Dbl.add st.sum_fps := by
  induction inputs generalizing st with
  | nil => simp [acquisitionLoop, hint]
  | cons inp rest ih =>
      have hk : inp.key ≠ VK_ESCAPE := hno inp (List.mem_cons_self _ _)
      have hrest : ∀ i ∈ rest, i.key ≠ VK_ESCAPE :=
        fun i hi => hno i (List.mem_cons_of_mem _ hi)
      have hstep : acquisitionLoop interp st (inp :: rest)
          = acquisitionLoop interp (loopBody interp st inp).1 rest := by
        simp [acquisitionLoop, loopBody_of_other_key interp st inp hk]
      have hfc := loopBody_frameCount interp st inp
      have hsum := (loopBody_fps interp st inp hk).2.1
      have hint1 : wrapInt32 (loopBody interp st inp).1.frameCount
          = (loopBody interp st inp).1.frameCount := by
        rw [hfc]
        unfold wrapInt32
        omega
      obtain ⟨h1, h2, h3⟩ := ih (loopBody interp st inp).1 hrest hint1
      rw [hstep]
      refine ⟨h1, ?_, ?_⟩
      · rw [h2, hfc]
        have hlen : (((inp :: rest).length : Nat) : Int) = (rest.length : Int) + 1 := by
          simp
        rw [hlen]
        unfold wrapInt32
        omega
      · rw [h3, hsum]
        simp

/-- After at least one pass, none polling ESC, the average is the current quotient. -/
theorem acquisitionLoop_avg (interp : Interpolation) (inputs : List IterationInput)
    (st : ProgramState) (hno : ∀ inp ∈ inputs, inp.key ≠ VK_ESCAPE)
    (hne : inputs ≠ []) :
    (acquisitionLoop interp st inputs).1.avg_fps
      = Dbl.div (acquisitionLoop interp st inputs).1.sum_fps
          (Dbl.ofInt (acquisitionLoop interp st inputs).1.frameCount) := by
  induction inputs generalizing st with
  | nil => exact absurd rfl hne
  | cons inp rest ih =>
      have hk : inp.key ≠ VK_ESCAPE := hno inp (List.mem_cons_self _ _)
      have hrest : ∀ i ∈ rest, i.key ≠ VK_ESCAPE :=
        fun i hi => hno i (List.mem_cons_of_mem _ hi)
      have hstep : acquisitionLoop interp st (inp :: rest)
          = acquisitionLoop interp (loopBody interp st inp).1 rest := by
        simp [acquisitionLoop, loopBody_of_other_key interp st inp hk]
      rw [hstep]
      cases rest with
      | nil =>
          obtain ⟨-, hsum, havg⟩ := loopBody_fps interp st inp hk
          simp only [acquisitionLoop]
          rw [havg, hsum, loopBody_frameCount]
      | cons inp2 rest2 => exact ih (loopBody interp st inp).1 hrest (by simp)

theorem main_final_of_ready (interp : Interpolation) (uninit : Nat → Nat → Nat)
    (cams : Nat → VideoCapture) (inputs : List IterationInput) (st : ProgramState)
    (hs : startup interp uninit cams = Startup.ready st) :
    (main interp uninit cams inputs).final = some (acquisitionLoop interp st inputs).1 := by
  unfold main
  rw [hs]
  simp only []
  rcases hb : acquisitionLoop interp st inputs with ⟨st1, b⟩
  cases b <;> simp

/-- C4 (amended): for `1 ≤ k < 2^31` passes none of which polls ESC, run by `main` once
both cameras are open with equal heights, after the `k`-th pass `frameCount` is `k`,
`sum_fps` is the sum of the `k` frame-rate samples taken from left to right,
`avg_fps` is that sum divided by `k`, and the divisor `frameCount` is not zero. -/
theorem running_average (interp : Interpolation) (uninit : Nat → Nat → Nat)
    (cams : Nat → VideoCapture) (inputs : List IterationInput)
    (h0 : (cams 0).opened = true) (h1 : (cams 1).opened = true)
    (hh : (cams 0).frameHeight = (cams 1).frameHeight)
    (hno : ∀ inp ∈ inputs, inp.key ≠ VK_ESCAPE)
    (hk : 1 ≤ inputs.length) (hmax : inputs.length < 2 ^ 31) :
    ∃ st, (main interp uninit cams inputs).final = some st ∧
      st.frameCount = (inputs.length : Int) ∧
      st.sum_fps = (inputs.map sampleOf).foldl Dbl.add (Dbl.fin 0) ∧
      st.avg_fps =
        Dbl.div ((inputs.map sampleOf).foldl Dbl.add (Dbl.fin 0)) (Dbl.ofNat inputs.length) ∧
      st.frameCount ≠ 0 := by
  obtain ⟨st0, hs, -, -, -, -, -, -, hfc0, hsum0, -⟩ :=
    startup_ready interp uninit cams h0 h1 hh
  have hint : wrapInt32 st0.frameCount = st0.frameCount := by
    rw [hfc0]; rfl
  obtain ⟨-, hfc, hsum⟩ := acquisitionLoop_no_escape interp inputs st0 hno hint
  have hne : inputs ≠ [] := by
    intro h
    rw [h] at hk
    simp at hk
  have havg := acquisitionLoop_avg interp inputs st0 hno hne
  have hfc2 : (acquisitionLoop interp st0 inputs).1.frameCount = (inputs.length : Int) := by
    rw [hfc, hfc0, zero_add]
    exact wrapInt32_of_small _ hmax
  rw [hsum0] at hsum
  refine ⟨_, main_final_of_ready interp uninit cams inputs st0 hs, hfc2, hsum, ?_, ?_⟩
  · rw [havg, hsum, hfc2]
    simp [Dbl.ofInt, Dbl.ofNat]
  · rw [hfc2]
    omega

theorem running_average_witness :
    ∃ st, (main nearest (fun _ _ => 0) twoVga (longRun 3)).final = some st ∧
      st.frameCount = ((longRun 3).length : Int) ∧
      st.sum_fps = ((longRun 3).map sampleOf).foldl Dbl.add (Dbl.fin 0) ∧
      st.avg_fps =
        Dbl.div (((longRun 3).map sampleOf).foldl Dbl.add (Dbl.fin 0))
          (Dbl.ofNat (longRun 3).length) ∧
      st.frameCount ≠ 0 :=
  running_average nearest (fun _ _ => 0) twoVga (longRun 3) rfl rfl rfl
    (by decide) (by decide) (by decide)

theorem longRun_keys (n : Nat) : ∀ inp ∈ longRun n, inp.key ≠ VK_ESCAPE := by
  intro inp hin
  have h : inp = quietPass 0 100 (-1) := List.eq_of_mem_replicate hin
  rw [h]
  decide

theorem longRun_length (n : Nat) : (longRun n).length = n :=
  List.length_replicate n _

theorem sampleOf_quietPass : sampleOf (quietPass 0 100 (-1)) = Dbl.fin 10 := by
  show Dbl.div (Dbl.fin 1000) (Dbl.ofNat (dwordSub (toDWORD 100) (toDWORD 0))) = Dbl.fin 10
  rw [dwordSub_of_gap 0 100 100 (by rfl) (by decide)]
  have h : Dbl.div (Dbl.fin 1000) (Dbl.ofNat 100) = Dbl.ofRat ((10 : ℤ) : ℚ) := by
    simp [Dbl.div, Dbl.ofNat]
    norm_num
  rw [h, ofRat_intCast 10 (by norm_num)]
  norm_num

theorem foldl_add_replicate (n j : Nat) (hsmall : 10 * (j + n) < 2 ^ 53) :
    (List.replicate n (Dbl.fin 10)).foldl Dbl.add (Dbl.fin ((10 * j : ℕ) : ℚ))
      = Dbl.fin ((10 * (j + n) : ℕ) : ℚ) := by
  induction n generalizing j with
  | zero => simp
  | succ m ih =>
      rw [List.replicate_succ, List.foldl_cons]
      have hadd : Dbl.add (Dbl.fin ((10 * j : ℕ) : ℚ)) (Dbl.fin 10)
          = Dbl.fin ((10 * (j + 1) : ℕ) : ℚ) := by
        have h1 : Dbl.add (Dbl.fin ((10 * j : ℕ) : ℚ)) (Dbl.fin 10)
            = Dbl.ofRat (((10 * (j + 1) : ℕ) : ℤ) : ℚ) := by
          simp only [Dbl.add]
          congr 1
          push_cast
          ring
        rw [h1, ofRat_intCast _ (by rw [abs_of_nonneg (by positivity)]; norm_cast; omega)]
        norm_cast
      rw [hadd, ih (j + 1) (by omega)]
      congr 2
      omega

/-- The counters of `main` after `n ≥ 1` passes of 100 ms without a key. -/
theorem longRun_final (n : Nat) (hn : 0 < n) (hsmall : 10 * n < 2 ^ 53) :
    ∃ st, (main nearest (fun _ _ => 0) twoVga (longRun n)).final = some st ∧
      st.frameCount = wrapInt32 (n : Int) ∧
      st.avg_fps = Dbl.div (Dbl.fin (10 * n)) (Dbl.ofInt (wrapInt32 (n : Int))) := by
  obtain ⟨st0, hs, -, -, -, -, -, -, hfc0, hsum0, -⟩ :=
    startup_ready nearest (fun _ _ => 0) twoVga rfl rfl rfl
  have hint : wrapInt32 st0.frameCount = st0.frameCount := by
    rw [hfc0]; rfl
  obtain ⟨-, hfc, hsum⟩ :=
    acquisitionLoop_no_escape nearest (longRun n) st0 (longRun_keys n) hint
  have hne : longRun n ≠ [] := by
    intro h
    have hl := longRun_length n
    rw [h] at hl
    simp at hl
    omega
  have havg := acquisitionLoop_avg nearest (longRun n) st0 (longRun_keys n) hne
  rw [longRun_length, hfc0, zero_add] at hfc
  have hsum2 : (acquisitionLoop nearest st0 (longRun n)).1.sum_fps = Dbl.fin (10 * n) := by
    rw [hsum, hsum0]
    unfold longRun
    rw [List.map_replicate, sampleOf_quietPass]
    have h := foldl_add_replicate n 0 (by omega)
    simp only [Nat.mul_zero, Nat.cast_zero, Nat.zero_add] at h
    rw [h]
    push_cast
    rfl
  refine ⟨_, main_final_of_ready nearest (fun _ _ => 0) twoVga (longRun n) st0 hs, hfc, ?_⟩
  rw [havg, hsum2, hfc]

/-- C4 (as stated, refuted): after `2^31` passes without ESC the 32-bit `frameCount` is
`-2^31`, not `2^31`; after `2^32` such passes it is 0, so line 146 divides by zero and
`avg_fps` is plus infinity. -/
theorem frameCount_wraps :
    (∀ inp ∈ longRun (2 ^ 31), inp.key ≠ VK_ESCAPE) ∧
    1 ≤ (longRun (2 ^ 31)).length ∧
    (∃ st, (main nearest (fun _ _ => 0) twoVga (longRun (2 ^ 31))).final = some st ∧
      st.frameCount = -2147483648 ∧
      st.frameCount ≠ ((longRun (2 ^ 31)).length : Int)) ∧
    (∀ inp ∈ longRun (2 ^ 32), inp.key ≠ VK_ESCAPE) ∧
    (∃ st, (main nearest (fun _ _ => 0) twoVga (longRun (2 ^ 32))).final = some st ∧
      st.frameCount = 0 ∧ st.avg_fps = Dbl.posInf) := by
  have w31 : wrapInt32 ((2 ^ 31 : Nat) : Int) = -2147483648 := by
    unfold wrapInt32
    norm_num
  have w32 : wrapInt32 ((2 ^ 32 : Nat) : Int) = 0 := by
    unfold wrapInt32
    norm_num
  refine ⟨longRun_keys _, ?_, ?_, longRun_keys _, ?_⟩
  · rw [longRun_length]
    norm_num
  · obtain ⟨st, hst, hfc, -⟩ := longRun_final (2 ^ 31) (by norm_num) (by norm_num)
    refine ⟨st, hst, ?_, ?_⟩
    · rw [hfc, w31]
    · rw [hfc, w31, longRun_length]
      norm_num
  · obtain ⟨st, hst, hfc, havg⟩ := longRun_final (2 ^ 32) (by norm_num) (by norm_num)
    refine ⟨st, hst, ?_, ?_⟩
    · rw [hfc, w32]
    · rw [havg, w32]
      simp [Dbl.div, Dbl.ofInt]

/-! ## The composite buffer and its slots -/

theorem copyToRoi_cols (src dst : Mat) (r : Rect) : (copyToRoi src dst r).cols = dst.cols := by
  unfold copyToRoi
  split <;> rfl

theorem copyToRoi_rows (src dst : Mat) (r : Rect) : (copyToRoi src dst r).rows = dst.rows := by
  unfold copyToRoi
  split <;> rfl

theorem copyToRoi_type (src dst : Mat) (r : Rect) : (copyToRoi src dst r).type = dst.type := by
  unfold copyToRoi
  split <;> rfl

theorem copyToRoi_outside (src dst : Mat) (r : Rect) (px py : Nat)
    (hout : r.contains px py = false) :
    (copyToRoi src dst r).data px py = dst.data px py := by
  unfold copyToRoi
  split
  · simp [hout]
  · rfl

theorem copyToRoi_inside (src dst : Mat) (r : Rect) (px py : Nat)
    (hfit : src.cols = r.width ∧ src.rows = r.height ∧ src.type = dst.type)
    (hin : r.contains px py = true) :
    (copyToRoi src dst r).data px py = src.data (px - r.x) (py - r.y) := by
  unfold copyToRoi
  rw [if_pos hfit]
  simp [hin]

theorem copyToRoi_data (src dst : Mat) (r : Rect) (px py : Nat) :
    (copyToRoi src dst r).data px py =
      if (src.cols = r.width ∧ src.rows = r.height ∧ src.type = dst.type) ∧
          r.contains px py = true
      then src.data (px - r.x) (py - r.y) else dst.data px py := by
  by_cases hfit : src.cols = r.width ∧ src.rows = r.height ∧ src.type = dst.type
  · by_cases hin : r.contains px py = true
    · rw [if_pos ⟨hfit, hin⟩]
      exact copyToRoi_inside src dst r px py hfit hin
    · rw [if_neg (fun h => hin h.2)]
      exact copyToRoi_outside src dst r px py (by simpa using hin)
  · rw [if_neg (fun h => hfit h.1)]
    unfold copyToRoi
    rw [if_neg hfit]

theorem copyToRoi_comm (s0 s1 dst : Mat) (r0 r1 : Rect)
    (hdisj : ∀ px py, ¬ (r0.contains px py = true ∧ r1.contains px py = true)) :
    copyToRoi s1 (copyToRoi s0 dst r0) r1 = copyToRoi s0 (copyToRoi s1 dst r1) r0 := by
  have key : ∀ px py, (copyToRoi s1 (copyToRoi s0 dst r0) r1).data px py
      = (copyToRoi s0 (copyToRoi s1 dst r1) r0).data px py := by
    intro px py
    have hd := hdisj px py
    rw [copyToRoi_data, copyToRoi_data, copyToRoi_data, copyToRoi_data, copyToRoi_type,
      copyToRoi_type]
    by_cases a0 : (s0.cols = r0.width ∧ s0.rows = r0.height ∧ s0.type = dst.type) ∧
        r0.contains px py = true
    · by_cases a1 : (s1.cols = r1.width ∧ s1.rows = r1.height ∧ s1.type = dst.type) ∧
          r1.contains px py = true
      · exact absurd ⟨a0.2, a1.2⟩ hd
      · rw [if_neg a1, if_pos a0, if_pos a0]
    · by_cases a1 : (s1.cols = r1.width ∧ s1.rows = r1.height ∧ s1.type = dst.type) ∧
          r1.contains px py = true
      · rw [if_pos a1, if_neg a0, if_pos a1]
      · rw [if_neg a1, if_neg a0, if_neg a0, if_neg a1]
  have hc : (copyToRoi s1 (copyToRoi s0 dst r0) r1).cols
      = (copyToRoi s0 (copyToRoi s1 dst r1) r0).cols := by
    simp [copyToRoi_cols]
  have hr : (copyToRoi s1 (copyToRoi s0 dst r0) r1).rows
      = (copyToRoi s0 (copyToRoi s1 dst r1) r0).rows := by
    simp [copyToRoi_rows]
  have ht : (copyToRoi s1 (copyToRoi s0 dst r0) r1).type
      = (copyToRoi s0 (copyToRoi s1 dst r1) r0).type := by
    simp [copyToRoi_type]
  have hdata : (copyToRoi s1 (copyToRoi s0 dst r0) r1).data
      = (copyToRoi s0 (copyToRoi s1 dst r1) r0).data := by
    funext px py
    exact key px py
  cases hA : copyToRoi s1 (copyToRoi s0 dst r0) r1
  cases hB : copyToRoi s0 (copyToRoi s1 dst r1) r0
  rw [hA, hB] at hc hr ht hdata
  simp only [] at hc hr ht hdata
  rw [hc, hr, ht, hdata]

theorem copyToRoi_shape (src dst : Mat) (r : Rect) :
    (copyToRoi src dst r).shape = dst.shape := by
  simp [Mat.shape, copyToRoi_cols, copyToRoi_rows, copyToRoi_type]

theorem cameraTask_combo (interp : Interpolation) (inp : IterationInput) (st : ProgramState)
    (i : Nat) :
    (cameraTask interp inp st i).combo
      = copyToRoi (resize interp (inp.grabbed i) f f) st.combo (st.roi i) := by
  simp [cameraTask, setAt]

theorem parallelFor_shape (interp : Interpolation) (inp : IterationInput) (order : List Nat)
    (st : ProgramState) : (parallelFor interp inp order st).combo.shape = st.combo.shape := by
  induction order generalizing st with
  | nil => rfl
  | cons i rest ih =>
      have h := ih (cameraTask interp inp st i)
      rw [cameraTask_combo, copyToRoi_shape] at h
      simpa [parallelFor] using h

theorem loopBody_shape (interp : Interpolation) (st : ProgramState) (inp : IterationInput) :
    (loopBody interp st inp).1.combo.shape = st.combo.shape := by
  have h : (untilKeyPoll interp st inp).combo.shape = st.combo.shape := by
    simp only [untilKeyPoll, countAndShow, displayImages, if_true]
    exact parallelFor_shape interp inp _ _
  by_cases hk : inp.key = VK_ESCAPE
  · rw [loopBody_of_escape interp st inp hk]
    exact h
  · rw [loopBody_of_other_key interp st inp hk]
    exact h

theorem acquisitionLoop_shape (interp : Interpolation) (inputs : List IterationInput)
    (st : ProgramState) : (acquisitionLoop interp st inputs).1.combo.shape = st.combo.shape := by
  induction inputs generalizing st with
  | nil => rfl
  | cons inp rest ih =>
      unfold acquisitionLoop
      rcases hb : loopBody interp st inp with ⟨st1, b⟩
      have hr : st1.combo.shape = st.combo.shape := by
        have := loopBody_shape interp st inp
        rw [hb] at this
        exact this
      cases b
      · simp only []
        rw [ih st1, hr]
      · simpa using hr

/-- Slots and composite buffer in any state the loop reaches from start-up. -/
theorem reachable_layout (interp : Interpolation) (uninit : Nat → Nat → Nat)
    (cams : Nat → VideoCapture) (prior : List IterationInput)
    (h0 : (cams 0).opened = true) (h1 : (cams 1).opened = true)
    (hh : (cams 0).frameHeight = (cams 1).frameHeight) :
    ∃ st0, startup interp uninit cams = Startup.ready st0 ∧
      (acquisitionLoop interp st0 prior).1.roi 0
        = ⟨0, 0, scaled (cams 0).frameWidth, scaled (cams 0).frameHeight⟩ ∧
      (acquisitionLoop interp st0 prior).1.roi 1
        = ⟨scaled (cams 0).frameWidth, 0, scaled (cams 0).frameWidth,
            scaled (cams 0).frameHeight⟩ ∧
      (acquisitionLoop interp st0 prior).1.combo.cols = scaled (cams 0).frameWidth * 2 ∧
      (acquisitionLoop interp st0 prior).1.combo.rows = scaled (cams 0).frameHeight ∧
      (acquisitionLoop interp st0 prior).1.combo.type = CV_8UC1 := by
  obtain ⟨st0, hs, hres, hcc, hcr, hct, hr0, hr1, -⟩ :=
    startup_ready interp uninit cams h0 h1 hh
  have hw : (st0.imgResized 0).cols = scaled (cams 0).frameWidth := by
    rw [hres 0]; rfl
  have hh2 : (st0.imgResized 0).rows = scaled (cams 0).frameHeight := by
    rw [hres 0]; rfl
  have hroi := acquisitionLoop_roi interp prior st0
  have hsh := acquisitionLoop_shape interp prior st0
  simp only [Mat.shape, Prod.mk.injEq] at hsh
  refine ⟨st0, hs, ?_, ?_, ?_, ?_, ?_⟩
  · rw [hroi, hr0, hw, hh2]
  · rw [hroi, hr1, hw, hh2]
  · rw [hsh.1, hcc, hw]
  · rw [hsh.2.1, hcr, hh2]
  · rw [hsh.2.2, hct]

theorem nearest_preservesSolid : PreservesSolid nearest := by
  intro src fx fy a hc hr hall px py
  unfold nearest
  apply hall
  · have := Nat.min_le_right (Int.toNat ⌊(px : ℚ) / fx⌋) (src.cols - 1)
    omega
  · have := Nat.min_le_right (Int.toNat ⌊(py : ℚ) / fy⌋) (src.rows - 1)
    omega

theorem scaled_640 : scaled 640 = 256 := by
  unfold scaled
  have h2 : ((640 : ℕ) : ℚ) = 640 := by norm_num
  rw [h2, round_640]
  rfl

theorem scaled_480 : scaled 480 = 192 := by
  unfold scaled
  have h2 : ((480 : ℕ) : ℚ) = 480 := by norm_num
  rw [h2, round_480]
  rfl

theorem scaled_pos_source (n : Nat) (h : 0 < scaled n) : 0 < n := by
  rcases Nat.eq_zero_or_pos n with hn | hn
  · rw [hn] at h
    simp [scaled] at h
  · exact hn

theorem parallelFor_combo (interp : Interpolation) (inp : IterationInput) (st : ProgramState)
    (i j : Nat) :
    (parallelFor interp inp [i, j] st).combo
      = copyToRoi (resize interp (inp.grabbed j) f f)
          (copyToRoi (resize interp (inp.grabbed i) f f) st.combo (st.roi i)) (st.roi j) := by
  simp [parallelFor, cameraTask, setAt]

theorem loopBody_combo (interp : Interpolation) (st : ProgramState) (inp : IterationInput) :
    (loopBody interp st inp).1.combo
      = (parallelFor interp inp (List.range numberOfCameras) st).combo := by
  have h : (untilKeyPoll interp st inp).combo
      = (parallelFor interp inp (List.range numberOfCameras) st).combo := by
    simp only [untilKeyPoll, countAndShow, displayImages, if_true, range_numberOfCameras]
    rw [parallelFor_combo, parallelFor_combo]
  by_cases hk : inp.key = VK_ESCAPE
  · rw [loopBody_of_escape interp st inp hk]
    exact h
  · rw [loopBody_of_other_key interp st inp hk]
    exact h

/-- C5: two cameras that open and report the same geometry `cols` by `rows`, an
interpolation that keeps one-valued images one-valued, and a pass, after any
earlier passes, in which camera 0 delivers a frame of value `a` and camera 1 a frame of
value `b`.  After the per-camera step, and so at the end of the pass, the composite
buffer is `2w` by `h` with every pixel in columns `[0, w)` equal to `a` and every pixel
in columns `[w, 2w)` equal to `b`, where `w = round(cols*f)`, `h = round(rows*f)`;
for 640 by 480 frames `w` is 256. -/
theorem solid_frames_fill_halves (interp : Interpolation) (uninit : Nat → Nat → Nat)
    (cams : Nat → VideoCapture) (prior : List IterationInput) (inp : IterationInput)
    (a b : Nat) (hsolid : PreservesSolid interp)
    (h0 : (cams 0).opened = true) (h1 : (cams 1).opened = true)
    (hh : (cams 1).frameHeight = (cams 0).frameHeight)
    (hw : (cams 1).frameWidth = (cams 0).frameWidth)
    (hf0 : inp.grabbed 0 = solid (cams 0).frameWidth (cams 0).frameHeight a)
    (hf1 : inp.grabbed 1 = solid (cams 1).frameWidth (cams 1).frameHeight b) :
    ∃ st0, startup interp uninit cams = Startup.ready st0 ∧
      (loopBody interp (acquisitionLoop interp st0 prior).1 inp).1.combo
        = (parallelFor interp inp (List.range numberOfCameras)
            (acquisitionLoop interp st0 prior).1).combo ∧
      (parallelFor interp inp (List.range numberOfCameras)
          (acquisitionLoop interp st0 prior).1).combo.cols
        = 2 * scaled (cams 0).frameWidth ∧
      (parallelFor interp inp (List.range numberOfCameras)
          (acquisitionLoop interp st0 prior).1).combo.rows
        = scaled (cams 0).frameHeight ∧
      (∀ px py, px < scaled (cams 0).frameWidth → py < scaled (cams 0).frameHeight →
        (parallelFor interp inp (List.range numberOfCameras)
          (acquisitionLoop interp st0 prior).1).combo.data px py = a) ∧
      (∀ px py, scaled (cams 0).frameWidth ≤ px → px < 2 * scaled (cams 0).frameWidth →
        py < scaled (cams 0).frameHeight →
        (parallelFor interp inp (List.range numberOfCameras)
          (acquisitionLoop interp st0 prior).1).combo.data px py = b) ∧
      ((cams 0).frameWidth = 640 → scaled (cams 0).frameWidth = 256) := by
  obtain ⟨st0, hs, hr0, hr1, hcc, hcr, hct⟩ :=
    reachable_layout interp uninit cams prior h0 h1 hh.symm
  refine ⟨st0, hs, loopBody_combo interp _ inp, ?_, ?_, ?_, ?_, ?_⟩
  · have hsh := parallelFor_shape interp inp (List.range numberOfCameras)
      (acquisitionLoop interp st0 prior).1
    simp only [Mat.shape, Prod.mk.injEq] at hsh
    rw [hsh.1, hcc]
    ring
  · have hsh := parallelFor_shape interp inp (List.range numberOfCameras)
      (acquisitionLoop interp st0 prior).1
    simp only [Mat.shape, Prod.mk.injEq] at hsh
    rw [hsh.2.1, hcr]
  · intro px py hpx hpy
    have hcols := scaled_pos_source _ (Nat.zero_lt_of_lt hpx)
    have hrows := scaled_pos_source _ (Nat.zero_lt_of_lt hpy)
    rw [range_numberOfCameras, parallelFor_combo, hr0, hr1, hf0, hf1]
    rw [copyToRoi_outside _ _ _ px py (by simp [Rect.contains]; omega)]
    rw [copyToRoi_inside _ _ _ px py ⟨rfl, rfl, by rw [hct]; rfl⟩
      (by simp [Rect.contains]; omega)]
    exact hsolid _ f f a hcols hrows (fun _ _ _ _ => rfl) _ _
  · intro px py hpx1 hpx2 hpy
    have hcols := scaled_pos_source (cams 0).frameWidth (by omega)
    have hrows := scaled_pos_source _ (Nat.zero_lt_of_lt hpy)
    rw [range_numberOfCameras, parallelFor_combo, hr0, hr1, hf0, hf1, hw, hh]
    rw [copyToRoi_inside _ _ _ px py ⟨rfl, rfl, by rw [copyToRoi_type, hct]; rfl⟩
      (by simp [Rect.contains]; omega)]
    exact hsolid _ f f b hcols hrows (fun _ _ _ _ => rfl) _ _
  · intro h640
    rw [h640]
    exact scaled_640

theorem solid_frames_fill_halves_witness :
    ∃ st0, startup nearest (fun _ _ => 7) twoVga = Startup.ready st0 ∧
      (loopBody nearest (acquisitionLoop nearest st0 onePass).1
          whiteBlackPass).1.combo
        = (parallelFor nearest whiteBlackPass (List.range numberOfCameras)
            (acquisitionLoop nearest st0 onePass).1).combo ∧
      (parallelFor nearest whiteBlackPass (List.range numberOfCameras)
          (acquisitionLoop nearest st0 onePass).1).combo.cols
        = 2 * scaled (twoVga 0).frameWidth ∧
      (parallelFor nearest whiteBlackPass (List.range numberOfCameras)
          (acquisitionLoop nearest st0 onePass).1).combo.rows
        = scaled (twoVga 0).frameHeight ∧
      (∀ px py, px < scaled (twoVga 0).frameWidth → py < scaled (twoVga 0).frameHeight →
        (parallelFor nearest whiteBlackPass (List.range numberOfCameras)
          (acquisitionLoop nearest st0 onePass).1).combo.data px py = 255) ∧
      (∀ px py, scaled (twoVga 0).frameWidth ≤ px → px < 2 * scaled (twoVga 0).frameWidth →
        py < scaled (twoVga 0).frameHeight →
        (parallelFor nearest whiteBlackPass (List.range numberOfCameras)
          (acquisitionLoop nearest st0 onePass).1).combo.data px py = 0) ∧
      ((twoVga 0).frameWidth = 640 → scaled (twoVga 0).frameWidth = 256) :=
  solid_frames_fill_halves nearest (fun _ _ => 7) twoVga onePass
    whiteBlackPass 255 0 nearest_preservesSolid rfl rfl rfl rfl rfl rfl

/-- The trace that start-up leaves when both cameras open and the heights agree. -/
theorem startup_trace (interp : Interpolation) (uninit : Nat → Nat → Nat)
    (cams : Nat → VideoCapture) (h0 : (cams 0).opened = true) (h1 : (cams 1).opened = true)
    (hh : (cams 0).frameHeight = (cams 1).frameHeight) :
    ∃ st, startup interp uninit cams = Startup.ready st ∧
      ∀ i r, Event.copyTo i r ∉ st.trace := by
  have hg : geometryAssertion cams = true := (geometryAssertion_iff cams).mpr hh
  simp only [startup, range_numberOfCameras, openCameras, h0, h1, hg, if_true]
  refine ⟨_, rfl, ?_⟩
  simp [numberOfCameras, displayImages, exposureEvents]

theorem loopBody_copies (interp : Interpolation) (st : ProgramState) (inp : IterationInput)
    (i : Nat) (r : Rect) (hmem : Event.copyTo i r ∈ (loopBody interp st inp).1.trace) :
    Event.copyTo i r ∈ st.trace ∨ ((i = 0 ∨ i = 1) ∧ r = st.roi i) := by
  by_cases hk : inp.key = VK_ESCAPE
  · rw [loopBody_of_escape interp st inp hk] at hmem
    simp only [untilKeyPoll_trace, passEvents] at hmem
    simp at hmem
    rcases hmem with h | h | h
    · exact Or.inl h
    · exact Or.inr ⟨Or.inl h.1, by rw [h.1]; exact h.2⟩
    · exact Or.inr ⟨Or.inr h.1, by rw [h.1]; exact h.2⟩
  · rw [loopBody_of_other_key interp st inp hk] at hmem
    simp only [measure, untilKeyPoll_trace, passEvents] at hmem
    simp at hmem
    rcases hmem with h | h | h
    · exact Or.inl h
    · exact Or.inr ⟨Or.inl h.1, by rw [h.1]; exact h.2⟩
    · exact Or.inr ⟨Or.inr h.1, by rw [h.1]; exact h.2⟩

theorem acquisitionLoop_copies (interp : Interpolation) (inputs : List IterationInput)
    (st : ProgramState) (i : Nat) (r : Rect)
    (hmem : Event.copyTo i r ∈ (acquisitionLoop interp st inputs).1.trace) :
    Event.copyTo i r ∈ st.trace ∨ ((i = 0 ∨ i = 1) ∧ r = st.roi i) := by
  induction inputs generalizing st with
  | nil => exact Or.inl hmem
  | cons inp rest ih =>
      have hroi := loopBody_roi interp st inp
      by_cases hk : inp.key = VK_ESCAPE
      · have hstep : acquisitionLoop interp st (inp :: rest) = ((loopBody interp st inp).1, true) := by
          simp [acquisitionLoop, loopBody_of_escape interp st inp hk]
        rw [hstep] at hmem
        exact loopBody_copies interp st inp i r hmem
      · have hstep : acquisitionLoop interp st (inp :: rest)
            = acquisitionLoop interp (loopBody interp st inp).1 rest := by
          simp [acquisitionLoop, loopBody_of_other_key interp st inp hk]
        rw [hstep] at hmem
        rcases ih (loopBody interp st inp).1 hmem with h | h
        · exact loopBody_copies interp st inp i r h
        · rw [hroi] at h
          exact Or.inr h

theorem main_trace_eq (interp : Interpolation) (uninit : Nat → Nat → Nat)
    (cams : Nat → VideoCapture) (inputs : List IterationInput) (st : ProgramState)
    (hs : startup interp uninit cams = Startup.ready st) :
    (main interp uninit cams inputs).trace
      = (acquisitionLoop interp st inputs).1.trace ++
          (if (acquisitionLoop interp st inputs).2 = true
            then [Event.coutVersion, Event.systemPause] else []) := by
  unfold main
  rw [hs]
  simp only []
  rcases hb : acquisitionLoop interp st inputs with ⟨st1, b⟩
  cases b <;> simp

theorem reachable_layout_of (interp : Interpolation) (uninit : Nat → Nat → Nat)
    (cams : Nat → VideoCapture) (prior : List IterationInput) (st0 : ProgramState)
    (h0 : (cams 0).opened = true) (h1 : (cams 1).opened = true)
    (hh : (cams 0).frameHeight = (cams 1).frameHeight)
    (hs : startup interp uninit cams = Startup.ready st0) :
    (acquisitionLoop interp st0 prior).1.roi 0
      = ⟨0, 0, scaled (cams 0).frameWidth, scaled (cams 0).frameHeight⟩ ∧
    (acquisitionLoop interp st0 prior).1.roi 1
      = ⟨scaled (cams 0).frameWidth, 0, scaled (cams 0).frameWidth,
          scaled (cams 0).frameHeight⟩ ∧
    (acquisitionLoop interp st0 prior).1.combo.cols = scaled (cams 0).frameWidth * 2 ∧
    (acquisitionLoop interp st0 prior).1.combo.rows = scaled (cams 0).frameHeight ∧
    (acquisitionLoop interp st0 prior).1.combo.type = CV_8UC1 := by
  obtain ⟨st1, hs1, hrest⟩ := reachable_layout interp uninit cams prior h0 h1 hh
  have heq : st1 = st0 := Startup.ready.inj (hs1.symm.trans hs)
  rw [heq] at hrest
  exact hrest

/-- C6: once both cameras are open with equal heights, the slot rectangles set up
before the loop are `(0, 0, w, h)` for camera 0 and `(w, 0, w, h)` for camera 1, with
`w` by `h` the resized frame size; no pass of the loop changes `roi`, so after any number
of passes the rectangles are the same; in every pass the task of camera `i` copies its
resized frame to `combo(roi[i])`; and every copy that `main` performs has camera 0
with destination `(0, 0, w, h)` or camera 1 with destination `(w, 0, w, h)`. -/
theorem slots_stable (interp : Interpolation) (uninit : Nat → Nat → Nat)
    (cams : Nat → VideoCapture) (inputs : List IterationInput)
    (h0 : (cams 0).opened = true) (h1 : (cams 1).opened = true)
    (hh : (cams 0).frameHeight = (cams 1).frameHeight) :
    ∃ st0, startup interp uninit cams = Startup.ready st0 ∧
      (st0.imgResized 0).cols = scaled (cams 0).frameWidth ∧
      (st0.imgResized 0).rows = scaled (cams 0).frameHeight ∧
      st0.roi 0 = ⟨0, 0, scaled (cams 0).frameWidth, scaled (cams 0).frameHeight⟩ ∧
      st0.roi 1 = ⟨scaled (cams 0).frameWidth, 0, scaled (cams 0).frameWidth,
        scaled (cams 0).frameHeight⟩ ∧
      (∀ (st : ProgramState) (inp : IterationInput), (loopBody interp st inp).1.roi = st.roi) ∧
      (∀ (st : ProgramState) (inp : IterationInput) (i : Nat),
        (cameraTask interp inp st i).combo
          = copyToRoi (resize interp (inp.grabbed i) f f) st.combo (st.roi i)) ∧
      (∀ (st : ProgramState) (inp : IterationInput),
        ∃ tail, (loopBody interp st inp).1.trace = st.trace ++
          [Event.grab 0, Event.copyTo 0 (st.roi 0), Event.grab 1, Event.copyTo 1 (st.roi 1),
            Event.imshow, Event.moveWindow 780 50, Event.waitKey 10] ++ tail) ∧
      (∀ n : Nat,
        (acquisitionLoop interp st0 (inputs.take n)).1.roi 0
          = ⟨0, 0, scaled (cams 0).frameWidth, scaled (cams 0).frameHeight⟩ ∧
        (acquisitionLoop interp st0 (inputs.take n)).1.roi 1
          = ⟨scaled (cams 0).frameWidth, 0, scaled (cams 0).frameWidth,
              scaled (cams 0).frameHeight⟩) ∧
      (∀ (i : Nat) (r : Rect), Event.copyTo i r ∈ (main interp uninit cams inputs).trace →
        (i = 0 ∧ r = ⟨0, 0, scaled (cams 0).frameWidth, scaled (cams 0).frameHeight⟩) ∨
        (i = 1 ∧ r = ⟨scaled (cams 0).frameWidth, 0, scaled (cams 0).frameWidth,
          scaled (cams 0).frameHeight⟩)) := by
  obtain ⟨st0, hs, hnocopy⟩ := startup_trace interp uninit cams h0 h1 hh
  obtain ⟨st1, hs1, hres, -⟩ := startup_ready interp uninit cams h0 h1 hh
  have heq : st1 = st0 := Startup.ready.inj (hs1.symm.trans hs)
  rw [heq] at hres
  have hlay := reachable_layout_of interp uninit cams [] st0 h0 h1 hh hs
  have hr0 : st0.roi 0 = ⟨0, 0, scaled (cams 0).frameWidth, scaled (cams 0).frameHeight⟩ :=
    hlay.1
  have hr1 : st0.roi 1 = ⟨scaled (cams 0).frameWidth, 0, scaled (cams 0).frameWidth,
      scaled (cams 0).frameHeight⟩ := hlay.2.1
  refine ⟨st0, hs, ?_, ?_, hr0, hr1, loopBody_roi interp,
    fun st inp i => cameraTask_combo interp inp st i, loopBody_trace interp, ?_, ?_⟩
  · rw [hres 0]; rfl
  · rw [hres 0]; rfl
  · intro n
    have h := reachable_layout_of interp uninit cams (inputs.take n) st0 h0 h1 hh hs
    exact ⟨h.1, h.2.1⟩
  · intro i r hmem
    rw [main_trace_eq interp uninit cams inputs st0 hs] at hmem
    have hloop : Event.copyTo i r ∈ (acquisitionLoop interp st0 inputs).1.trace := by
      rcases List.mem_append.mp hmem with h | h
      · exact h
      · split at h <;> simp at h
    rcases acquisitionLoop_copies interp inputs st0 i r hloop with h | ⟨hi, hr⟩
    · exact absurd h (hnocopy i r)
    · rcases hi with rfl | rfl
      · exact Or.inl ⟨rfl, by rw [hr, hr0]⟩
      · exact Or.inr ⟨rfl, by rw [hr, hr1]⟩

theorem slots_stable_witness :
    ∃ st0, startup nearest (fun _ _ => 7) twoVga = Startup.ready st0 ∧
      (st0.imgResized 0).cols = scaled (twoVga 0).frameWidth ∧
      (st0.imgResized 0).rows = scaled (twoVga 0).frameHeight ∧
      st0.roi 0 = ⟨0, 0, scaled (twoVga 0).frameWidth, scaled (twoVga 0).frameHeight⟩ ∧
      st0.roi 1 = ⟨scaled (twoVga 0).frameWidth, 0, scaled (twoVga 0).frameWidth,
        scaled (twoVga 0).frameHeight⟩ ∧
      (∀ (st : ProgramState) (inp : IterationInput), (loopBody nearest st inp).1.roi = st.roi) ∧
      (∀ (st : ProgramState) (inp : IterationInput) (i : Nat),
        (cameraTask nearest inp st i).combo
          = copyToRoi (resize nearest (inp.grabbed i) f f) st.combo (st.roi i)) ∧
      (∀ (st : ProgramState) (inp : IterationInput),
        ∃ tail, (loopBody nearest st inp).1.trace = st.trace ++
          [Event.grab 0, Event.copyTo 0 (st.roi 0), Event.grab 1, Event.copyTo 1 (st.roi 1),
            Event.imshow, Event.moveWindow 780 50, Event.waitKey 10] ++ tail) ∧
      (∀ n : Nat,
        (acquisitionLoop nearest st0 (twoPasses.take n)).1.roi 0
          = ⟨0, 0, scaled (twoVga 0).frameWidth, scaled (twoVga 0).frameHeight⟩ ∧
        (acquisitionLoop nearest st0 (twoPasses.take n)).1.roi 1
          = ⟨scaled (twoVga 0).frameWidth, 0, scaled (twoVga 0).frameWidth,
              scaled (twoVga 0).frameHeight⟩) ∧
      (∀ (i : Nat) (r : Rect),
        Event.copyTo i r ∈ (main nearest (fun _ _ => 7) twoVga twoPasses).trace →
        (i = 0 ∧ r = ⟨0, 0, scaled (twoVga 0).frameWidth, scaled (twoVga 0).frameHeight⟩) ∨
        (i = 1 ∧ r = ⟨scaled (twoVga 0).frameWidth, 0, scaled (twoVga 0).frameWidth,
          scaled (twoVga 0).frameHeight⟩)) :=
  slots_stable nearest (fun _ _ => 7) twoVga twoPasses rfl rfl rfl

/-- C10: once both cameras are open with equal heights, in any state the loop reaches,
with `w` by `h` the resized frame size: the composite buffer is `2w` by `h`; each of
the two slots lies inside it; no pixel belongs to both slots; every pixel of the buffer
belongs to one of them; the composite buffer after the per-camera step is the same
whether the task of camera 0 or the task of camera 1 runs first; and the task of one
camera leaves every pixel of the other camera's slot as it was. -/
theorem slots_partition_combo (interp : Interpolation) (uninit : Nat → Nat → Nat)
    (cams : Nat → VideoCapture) (prior : List IterationInput) (inp : IterationInput)
    (h0 : (cams 0).opened = true) (h1 : (cams 1).opened = true)
    (hh : (cams 0).frameHeight = (cams 1).frameHeight) :
    ∃ st0, startup interp uninit cams = Startup.ready st0 ∧
      (acquisitionLoop interp st0 prior).1.combo.cols = 2 * scaled (cams 0).frameWidth ∧
      (acquisitionLoop interp st0 prior).1.combo.rows = scaled (cams 0).frameHeight ∧
      (∀ i px py, i < numberOfCameras →
        ((acquisitionLoop interp st0 prior).1.roi i).contains px py = true →
        px < (acquisitionLoop interp st0 prior).1.combo.cols ∧
        py < (acquisitionLoop interp st0 prior).1.combo.rows) ∧
      (∀ px py,
        ¬ (((acquisitionLoop interp st0 prior).1.roi 0).contains px py = true ∧
           ((acquisitionLoop interp st0 prior).1.roi 1).contains px py = true)) ∧
      (∀ px py, px < (acquisitionLoop interp st0 prior).1.combo.cols →
        py < (acquisitionLoop interp st0 prior).1.combo.rows →
        ((acquisitionLoop interp st0 prior).1.roi 0).contains px py = true ∨
        ((acquisitionLoop interp st0 prior).1.roi 1).contains px py = true) ∧
      (parallelFor interp inp [0, 1] (acquisitionLoop interp st0 prior).1).combo
        = (parallelFor interp inp [1, 0] (acquisitionLoop interp st0 prior).1).combo ∧
      (∀ px py, ((acquisitionLoop interp st0 prior).1.roi 1).contains px py = true →
        (cameraTask interp inp (acquisitionLoop interp st0 prior).1 0).combo.data px py
          = (acquisitionLoop interp st0 prior).1.combo.data px py) ∧
      (∀ px py, ((acquisitionLoop interp st0 prior).1.roi 0).contains px py = true →
        (cameraTask interp inp (acquisitionLoop interp st0 prior).1 1).combo.data px py
          = (acquisitionLoop interp st0 prior).1.combo.data px py) := by
  obtain ⟨st0, hs, hr0, hr1, hcc, hcr, -⟩ :=
    reachable_layout interp uninit cams prior h0 h1 hh
  have hdisj : ∀ px py,
      ¬ (((acquisitionLoop interp st0 prior).1.roi 0).contains px py = true ∧
         ((acquisitionLoop interp st0 prior).1.roi 1).contains px py = true) := by
    intro px py
    rw [hr0, hr1]
    simp [Rect.contains]
    omega
  refine ⟨st0, hs, ?_, hcr, ?_, hdisj, ?_, ?_, ?_, ?_⟩
  · rw [hcc]; ring
  · intro i px py hi hin
    have hcases : i = 0 ∨ i = 1 := by
      unfold numberOfCameras at hi; omega
    rw [hcc, hcr]
    rcases hcases with rfl | rfl
    · rw [hr0] at hin
      simp [Rect.contains] at hin
      omega
    · rw [hr1] at hin
      simp [Rect.contains] at hin
      omega
  · intro px py hpx hpy
    rw [hcc] at hpx
    rw [hcr] at hpy
    rw [hr0, hr1]
    simp [Rect.contains]
    omega
  · rw [parallelFor_combo, parallelFor_combo]
    exact copyToRoi_comm _ _ _ _ _ hdisj
  · intro px py hin
    rw [cameraTask_combo]
    apply copyToRoi_outside
    have := hdisj px py
    cases hc : ((acquisitionLoop interp st0 prior).1.roi 0).contains px py
    · rfl
    · exact absurd ⟨hc, hin⟩ this
  · intro px py hin
    rw [cameraTask_combo]
    apply copyToRoi_outside
    have := hdisj px py
    cases hc : ((acquisitionLoop interp st0 prior).1.roi 1).contains px py
    · rfl
    · exact absurd ⟨hin, hc⟩ this

theorem slots_partition_combo_witness :
    ∃ st0, startup nearest (fun _ _ => 7) twoVga = Startup.ready st0 ∧
      (acquisitionLoop nearest st0 onePass).1.combo.cols = 2 * scaled (twoVga 0).frameWidth ∧
      (acquisitionLoop nearest st0 onePass).1.combo.rows = scaled (twoVga 0).frameHeight ∧
      (∀ i px py, i < numberOfCameras →
        ((acquisitionLoop nearest st0 onePass).1.roi i).contains px py = true →
        px < (acquisitionLoop nearest st0 onePass).1.combo.cols ∧
        py < (acquisitionLoop nearest st0 onePass).1.combo.rows) ∧
      (∀ px py,
        ¬ (((acquisitionLoop nearest st0 onePass).1.roi 0).contains px py = true ∧
           ((acquisitionLoop nearest st0 onePass).1.roi 1).contains px py = true)) ∧
      (∀ px py, px < (acquisitionLoop nearest st0 onePass).1.combo.cols →
        py < (acquisitionLoop nearest st0 onePass).1.combo.rows →
        ((acquisitionLoop nearest st0 onePass).1.roi 0).contains px py = true ∨
        ((acquisitionLoop nearest st0 onePass).1.roi 1).contains px py = true) ∧
      (parallelFor nearest whiteBlackPass [0, 1] (acquisitionLoop nearest st0 onePass).1).combo
        = (parallelFor nearest whiteBlackPass [1, 0] (acquisitionLoop nearest st0 onePass).1).combo ∧
      (∀ px py, ((acquisitionLoop nearest st0 onePass).1.roi 1).contains px py = true →
        (cameraTask nearest whiteBlackPass (acquisitionLoop nearest st0 onePass).1 0).combo.data px py
          = (acquisitionLoop nearest st0 onePass).1.combo.data px py) ∧
      (∀ px py, ((acquisitionLoop nearest st0 onePass).1.roi 0).contains px py = true →
        (cameraTask nearest whiteBlackPass (acquisitionLoop nearest st0 onePass).1 1).combo.data px py
          = (acquisitionLoop nearest st0 onePass).1.combo.data px py) :=
  slots_partition_combo nearest (fun _ _ => 7) twoVga onePass whiteBlackPass
    rfl rfl rfl

end PvapiCapture
